import Mathlib

/-!
Synthsizer: the signal path of `Synth/Synth.cpp`.

A shallow embedding of `sEnvelopeADSR` (its two constructors, `NoteOn`, `NoteOff`,
`GetAmplitude`), of the wired global `envelope`, of `w`, `oscilator` and `makeNoise`, and of the
key polling loop of `main`.

Number model.  The C++ code computes with `double`.  Here a finite `double` is an element of an arbitrary
linearly ordered field `K` (instantiate `K := ℚ` to evaluate), and arithmetic on finite values
is exact: rounding, overflow and underflow are not modelled.  What *is* modelled is the
IEEE-754 behaviour of the non-finite values, because `GetAmplitude` divides by the envelope
durations without a guard: `Dbl K` adds `+inf`, `-inf` and `NaN` to `K`, a division by zero
yields them as IEEE-754 prescribes, and every comparison with `NaN` is false.  The model has one
zero, which divides like `+0.0` (the literal `0.0` of the source).

The fields of the envelope, the stored pitch and the time argument are finite values (`K`);
only the amplitude and the oscillator value being computed can leave the finite range.

One rounding is modelled, with `roundDouble`: that of the period `1.0 / dHertz` of the digital
saw, which is the second argument of `fmod`.  There the rounding decides on which side of a
jump of the saw a time falls, so that the result can differ by 2 from the exact one.

The library functions (`sin`, `asin`, `pow`, `rand`) and the constant `PI` are parameters of the
oscillator; statements about the sine, the power and `π` themselves are made over `ℝ` with
`Real.sin`, the real power and `Real.pi`.
-/

namespace Synth

/-- A `double`: a finite value, one of the two infinities, or NaN. -/
inductive Dbl (K : Type) where
  | fin (x : K)
  | pinf
  | ninf
  | nan
  deriving DecidableEq

variable {K : Type} [LinearOrderedField K]

/-- IEEE-754 addition (`+` on `double`), exact on finite values. -/
def Dbl.add : Dbl K → Dbl K → Dbl K
  | .fin x, .fin y => .fin (x + y)
  | .fin _, .pinf => .pinf
  | .fin _, .ninf => .ninf
  | .pinf, .fin _ => .pinf
  | .pinf, .pinf => .pinf
  | .pinf, .ninf => .nan
  | .ninf, .fin _ => .ninf
  | .ninf, .ninf => .ninf
  | .ninf, .pinf => .nan
  | .nan, _ => .nan
  | _, .nan => .nan

/-- The product of an infinity of sign `pos` with the finite value `y`. -/
def Dbl.infTimes (pos : Bool) (y : K) : Dbl K :=
  if 0 < y then (if pos then .pinf else .ninf)
  else if y < 0 then (if pos then .ninf else .pinf)
  else .nan

/-- IEEE-754 multiplication (`*` on `double`), exact on finite values. -/
def Dbl.mul : Dbl K → Dbl K → Dbl K
  | .fin x, .fin y => .fin (x * y)
  | .fin x, .pinf => Dbl.infTimes true x
  | .fin x, .ninf => Dbl.infTimes false x
  | .pinf, .fin y => Dbl.infTimes true y
  | .ninf, .fin y => Dbl.infTimes false y
  | .pinf, .pinf => .pinf
  | .pinf, .ninf => .ninf
  | .ninf, .pinf => .ninf
  | .ninf, .ninf => .pinf
  | .nan, _ => .nan
  | _, .nan => .nan

/-- IEEE-754 division (`/` on `double`), exact on finite values with a non-zero divisor.
A finite non-zero value divided by zero is an infinity with the sign of the dividend, and
`0 / 0` is NaN. -/
def Dbl.div : Dbl K → Dbl K → Dbl K
  | .fin x, .fin y =>
      if y = 0 then (if 0 < x then .pinf else if x < 0 then .ninf else .nan)
      else .fin (x / y)
  | .fin _, .pinf => .fin 0
  | .fin _, .ninf => .fin 0
  | .pinf, .fin y => if y < 0 then .ninf else .pinf
  | .ninf, .fin y => if y < 0 then .pinf else .ninf
  | .pinf, .pinf => .nan
  | .pinf, .ninf => .nan
  | .ninf, .pinf => .nan
  | .ninf, .ninf => .nan
  | .nan, _ => .nan
  | _, .nan => .nan

/-- IEEE-754 `<=` on `double`: false as soon as one side is NaN. -/
def Dbl.le : Dbl K → Dbl K → Bool
  | .fin x, .fin y => decide (x ≤ y)
  | .fin _, .pinf => true
  | .fin _, .ninf => false
  | .pinf, .fin _ => false
  | .pinf, .pinf => true
  | .pinf, .ninf => false
  | .ninf, .fin _ => true
  | .ninf, .pinf => true
  | .ninf, .ninf => true
  | .nan, _ => false
  | _, .nan => false

/-- Amplitude (Attack, Decay, Sustain, Release) envelope: the fields of `struct sEnvelopeADSR`,
in the order of the source. -/
structure sEnvelopeADSR (K : Type) where
  dAttackTime : K
  dDecayTime : K
  dSustainAmplitude : K
  dReleaseTime : K
  dStartAmplitude : K
  dTriggerOffTime : K
  dTriggerOnTime : K
  bNoteOn : Bool

/-- The default constructor `sEnvelopeADSR()`. -/
def sEnvelopeADSR.init : sEnvelopeADSR K where
  dAttackTime := 10 / 100
  dDecayTime := 1 / 100
  dStartAmplitude := 1
  dSustainAmplitude := 8 / 10
  dReleaseTime := 20 / 100
  bNoteOn := false
  dTriggerOffTime := 0
  dTriggerOnTime := 0

/-- The constructor `sEnvelopeADSR(attack, decay, sustain, realease)`. -/
def sEnvelopeADSR.init4 (attack decay sustain realease : K) : sEnvelopeADSR K where
  dAttackTime := attack
  dDecayTime := decay
  dSustainAmplitude := sustain
  dReleaseTime := realease
  dStartAmplitude := 1
  bNoteOn := false
  dTriggerOffTime := 0
  dTriggerOnTime := 0

/-- Call when key is pressed: `NoteOn(dTimeOn)`. -/
def sEnvelopeADSR.NoteOn (e : sEnvelopeADSR K) (dTimeOn : K) : sEnvelopeADSR K :=
  { e with dTriggerOnTime := dTimeOn, bNoteOn := true }

/-- Call when key is released: `NoteOff(dTimeOff)`. -/
def sEnvelopeADSR.NoteOff (e : sEnvelopeADSR K) (dTimeOff : K) : sEnvelopeADSR K :=
  { e with dTriggerOffTime := dTimeOff, bNoteOn := false }

/-- The final statement of `GetAmplitude`: `if (dAmplitude <= 0.0001) dAmplitude = 0.0;`. -/
def clampAmplitude (dAmplitude : Dbl K) : Dbl K :=
  if Dbl.le dAmplitude (.fin (1 / 10000)) then .fin 0 else dAmplitude

/-- Get the correct amplitude at the requested point in time: `GetAmplitude(dTime)`.
The local `dAmplitude` of the source is threaded through the three consecutive `if`
statements of the note-on case. -/
def sEnvelopeADSR.GetAmplitude (e : sEnvelopeADSR K) (dTime : K) : Dbl K :=
  let dAmplitude : Dbl K := .fin 0
  let dLifeTime : K := dTime - e.dTriggerOnTime
  let dAmplitude : Dbl K :=
    if e.bNoteOn then
      -- In attack Phase - approach max amplitude
      let dAmplitude : Dbl K :=
        if dLifeTime ≤ e.dAttackTime then
          Dbl.mul (Dbl.div (.fin dLifeTime) (.fin e.dAttackTime)) (.fin e.dStartAmplitude)
        else dAmplitude
      -- In decay phase - reduce to sustained amplitude
      let dAmplitude : Dbl K :=
        if dLifeTime > e.dAttackTime ∧ dLifeTime ≤ e.dAttackTime + e.dDecayTime then
          Dbl.add
            (Dbl.mul (Dbl.div (.fin (dLifeTime - e.dAttackTime)) (.fin e.dDecayTime))
              (.fin (e.dSustainAmplitude - e.dStartAmplitude)))
            (.fin e.dStartAmplitude)
        else dAmplitude
      -- In sustain phase - dont change until note released
      let dAmplitude : Dbl K :=
        if dLifeTime > e.dAttackTime + e.dDecayTime then .fin e.dSustainAmplitude
        else dAmplitude
      dAmplitude
    else
      -- Note has been released, so in release phase
      Dbl.add
        (Dbl.mul (Dbl.div (.fin (dTime - e.dTriggerOffTime)) (.fin e.dReleaseTime))
          (.fin (0 - e.dSustainAmplitude)))
        (.fin e.dSustainAmplitude)
  -- Amplitude should not be negative
  clampAmplitude dAmplitude

/-- The global `sEnvelopeADSR envelope(0.0, 0.1, 1.0, 0.1);`. -/
def envelope : sEnvelopeADSR K := sEnvelopeADSR.init4 0 (1 / 10) 1 (1 / 10)

/-- The envelope of the specification's worked example:
`attack=0.1, decay=0.01, sustain=0.8, release=0.1`, built with the four-argument constructor. -/
def testEnvelope : sEnvelopeADSR ℚ := sEnvelopeADSR.init4 (1 / 10) (1 / 100) (8 / 10) (1 / 10)

/-- The clamp of the specification: `clamp v` is 0 when `v ≤ 0.0001` and `v` otherwise. -/
def clamp (v : K) : K := if v ≤ 1 / 10000 then 0 else v

/-! ## The oscillator and the renderer

`sin`, `asin`, `pow` and `rand` come from the C library and `PI` from `olcNoiseMaker.h`; none of
them is code of this file, so the oscillator takes them as a parameter `MathEnv`.  The theorems
that need more than their types instantiate them with the real functions `Real.sin`,
`Real.arcsin`, the real power and `Real.pi`.  `fmod` is given by its definition in the C
standard. -/

/-- General purpose oscillator: `enum class OSC`. -/
inductive OSC where
  | SINE
  | SQUARE
  | TRIANGLE
  | SAW_ANALOG
  | SAW_DIGITAL
  | NOISE
  deriving DecidableEq

/-- The library functions and constants used by `Synth.cpp`: `sin`, `asin` and `pow` of
`<cmath>`, the constant `PI` of `olcNoiseMaker.h`, the value returned by the call of `rand()`
and the constant `RAND_MAX`. -/
structure MathEnv (K : Type) where
  sin : K → K
  asin : K → K
  pow : K → K → K
  PI : K
  rand : ℕ
  RAND_MAX : ℕ

/-- IEEE-754 subtraction (`-` on `double`), exact on finite values. -/
def Dbl.sub : Dbl K → Dbl K → Dbl K
  | .fin x, .fin y => .fin (x - y)
  | .fin _, .pinf => .ninf
  | .fin _, .ninf => .pinf
  | .pinf, .fin _ => .pinf
  | .pinf, .ninf => .pinf
  | .pinf, .pinf => .nan
  | .ninf, .fin _ => .ninf
  | .ninf, .pinf => .ninf
  | .ninf, .ninf => .nan
  | .nan, _ => .nan
  | _, .nan => .nan

/-- Rounding toward zero, as in the quotient of `fmod`. -/
def truncate [FloorRing K] (q : K) : ℤ := if 0 ≤ q then ⌊q⌋ else ⌈q⌉

/-- The `fmod` of the C standard: `fmod(x, y) = x - n * y` with `n` the quotient `x / y`
rounded toward zero; NaN if `x` is infinite or `y` is zero, and `x` if `y` is infinite. -/
def Dbl.fmod [FloorRing K] : Dbl K → Dbl K → Dbl K
  | .fin x, .fin y => if y = 0 then .nan else .fin (x - (truncate (x / y) : K) * y)
  | .fin x, .pinf => .fin x
  | .fin x, .ninf => .fin x
  | .fin _, .nan => .nan
  | .pinf, _ => .nan
  | .ninf, _ => .nan
  | .nan, _ => .nan

/-- Rounding to the nearest integer, ties to the even one. -/
def roundHalfEven [FloorRing K] (x : K) : ℤ :=
  if x - ⌊x⌋ < 1 / 2 then ⌊x⌋
  else if 1 / 2 < x - ⌊x⌋ then ⌊x⌋ + 1
  else if ⌊x⌋ % 2 = 0 then ⌊x⌋ else ⌊x⌋ + 1

/-- The `double` nearest to `x`: binary64 rounding to nearest, ties to even, of a 53-bit
significand.  With `e` the binary exponent of `x`, the spacing of the doubles around `x` is
`2 ^ (e - 52)`.  The exponent range is not modelled (no overflow, no subnormals). -/
def roundDouble [FloorRing K] (x : K) : K :=
  if x = 0 then 0
  else (roundHalfEven (x / (2 : K) ^ (Int.log 2 |x| - 52)) : K) * (2 : K) ^ (Int.log 2 |x| - 52)

/-- The rounding of an arithmetic result to a `double`; infinities and NaN are kept. -/
def Dbl.round [FloorRing K] : Dbl K → Dbl K
  | .fin x => .fin (roundDouble x)
  | .pinf => .pinf
  | .ninf => .ninf
  | .nan => .nan

/-- Angular velocity: `double w(double dHertz) { return 2.0 * PI * dHertz; }`. -/
def w (m : MathEnv K) (dHertz : K) : K := 2 * m.PI * dHertz

/-- The loop `for (double n = 1.0; n < 100.0; n++) dOutput += (sin(n * w(dHertz) * dTime)) / n;`
of the `SAW_ANALOG` case, from the loop state `(n, dOutput)`.  The first argument is fuel: each
test of the loop condition uses one unit. -/
def sawAnalogLoop (m : MathEnv K) (dHertz dTime : K) : ℕ → K → Dbl K → Dbl K
  | 0, _, dOutput => dOutput
  | fuel + 1, n, dOutput =>
      if n < 100 then
        sawAnalogLoop m dHertz dTime fuel (n + 1)
          (Dbl.add dOutput (Dbl.div (.fin (m.sin (n * w m dHertz * dTime))) (.fin n)))
      else dOutput

/-- The function `oscilator(dHertz, dTime, nType)`.  The `default:` case of the `switch` cannot
be reached from a value of `enum class OSC`.  The `SAW_ANALOG` loop is run with fuel 100: 99
iterations and the final test.  In the `SAW_DIGITAL` case the period `1.0 / dHertz` is the
rounded quotient: `fmod` is discontinuous in its second argument, so that this rounding moves
the jumps of the saw and is not absorbed in a tolerance. -/
def oscilator [FloorRing K] (m : MathEnv K) (dHertz dTime : K) (nType : OSC) : Dbl K :=
  match nType with
  | .SINE => .fin (m.sin (w m dHertz * dTime))
  | .SQUARE => if m.sin (w m dHertz * dTime) > 0 then .fin 1 else .fin (-1)
  | .TRIANGLE =>
      Dbl.mul (.fin (m.asin (m.sin (w m dHertz * dTime)))) (Dbl.div (.fin 2) (.fin m.PI))
  | .SAW_ANALOG =>
      let dOutput : Dbl K := sawAnalogLoop m dHertz dTime 100 1 (.fin 0)
      Dbl.mul dOutput (Dbl.div (.fin 2) (.fin m.PI))
  | .SAW_DIGITAL =>
      Dbl.mul (Dbl.div (.fin 2) (.fin m.PI))
        (Dbl.sub
          (Dbl.mul (.fin (dHertz * m.PI))
            (Dbl.fmod (.fin dTime) (Dbl.round (Dbl.div (.fin 1) (.fin dHertz)))))
          (Dbl.div (.fin m.PI) (.fin 2)))
  | .NOISE =>
      Dbl.sub (Dbl.mul (.fin 2) (Dbl.div (.fin (m.rand : K)) (.fin (m.RAND_MAX : K)))) (.fin 1)

/-- The mutable globals read by the renderer: `dFrequencyOutput` and `envelope`. -/
structure Globals (K : Type) where
  dFrequencyOutput : K
  envelope : sEnvelopeADSR K

/-- The globals as initialised at program start: `dFrequencyOutput = 0.0` and
`envelope(0.0, 0.1, 1.0, 0.1)`. -/
def Globals.init : Globals K where
  dFrequencyOutput := 0
  envelope := Synth.envelope

/-- The render function `makeNoise(dTime)`, in state-passing form: the sample and the globals
after the call. -/
def makeNoise [FloorRing K] (m : MathEnv K) (g : Globals K) (dTime : K) : Dbl K × Globals K :=
  (Dbl.mul (g.envelope.GetAmplitude dTime) (oscilator m g.dFrequencyOutput dTime .SAW_ANALOG), g)

/-! ## The key loop of `main` -/

/-- The global `double dOctaveBaseFrequency = 110.0;`. -/
def dOctaveBaseFrequency : K := 110

/-- The global `double d12thRootOf2 = pow(2.0, 1.0 / 12.0);`. -/
def d12thRootOf2 (m : MathEnv K) : K := m.pow 2 (1 / 12)

/-- The frequency stored for key `k`: `dOctaveBaseFrequency * pow(d12thRootOf2, k)`. -/
def keyFrequency (m : MathEnv K) (k : ℕ) : K :=
  dOctaveBaseFrequency * m.pow (d12thRootOf2 m) (k : K)

/-- A call of one of the two mutators of the envelope. -/
inductive EnvCall (K : Type) where
  | NoteOn (dTimeOn : K)
  | NoteOff (dTimeOff : K)

/-- Perform one call on the envelope. -/
def EnvCall.apply (e : sEnvelopeADSR K) : EnvCall K → sEnvelopeADSR K
  | .NoteOn t => e.NoteOn t
  | .NoteOff t => e.NoteOff t

/-- Perform a sequence of calls, first to last. -/
def runCalls (e : sEnvelopeADSR K) (calls : List (EnvCall K)) : sEnvelopeADSR K :=
  calls.foldl EnvCall.apply e

/-- The time argument of the most recent `NoteOn` of a sequence of calls, if there is one. -/
def lastOnTime : List (EnvCall K) → Option K
  | [] => none
  | .NoteOn t :: rest => (lastOnTime rest).orElse (fun _ => some t)
  | .NoteOff _ :: rest => lastOnTime rest

/-- The time argument of the most recent `NoteOff` of a sequence of calls, if there is one. -/
def lastOffTime : List (EnvCall K) → Option K
  | [] => none
  | .NoteOff t :: rest => (lastOffTime rest).orElse (fun _ => some t)
  | .NoteOn _ :: rest => lastOffTime rest

/-- The state of the `while (1)` loop of `main`: the locals `nCurrentKey` and `bKeyPressed`, the
globals, and (ghost) the calls made on the envelope so far, oldest first. -/
structure MainState (K : Type) where
  nCurrentKey : ℤ
  bKeyPressed : Bool
  globals : Globals K
  calls : List (EnvCall K)

/-- The body of `for (int k = 0; k < 16; k++)`.  `keyDown k` is
`GetAsyncKeyState(...) & 0x8000` for key `k`, and `GetTime k` the value returned by
`sound.GetTime()` in the `NoteOn` call for key `k`; the output to `wcout` is not modelled. -/
def keyBody (m : MathEnv K) (keyDown : ℕ → Bool) (GetTime : ℕ → K) (s : MainState K) (k : ℕ) :
    MainState K :=
  if keyDown k then
    let s : MainState K :=
      if s.nCurrentKey ≠ (k : ℤ) then
        { s with
          globals :=
            { dFrequencyOutput := keyFrequency m k
              envelope := s.globals.envelope.NoteOn (GetTime k) }
          calls := s.calls ++ [.NoteOn (GetTime k)]
          nCurrentKey := (k : ℤ) }
      else s
    { s with bKeyPressed := true }
  else s

/-- One pass of the body of `while (1)`: the reset of `bKeyPressed`, the loop over the 16 keys
and the release test.  `dTimeOff` is the value returned by `sound.GetTime()` in the `NoteOff`
call. -/
def pollPass (m : MathEnv K) (keyDown : ℕ → Bool) (GetTime : ℕ → K) (dTimeOff : K)
    (s : MainState K) : MainState K :=
  let s : MainState K := { s with bKeyPressed := false }
  let s : MainState K := (List.range 16).foldl (keyBody m keyDown GetTime) s
  if !s.bKeyPressed then
    if s.nCurrentKey ≠ -1 then
      { s with
        globals := { s.globals with envelope := s.globals.envelope.NoteOff dTimeOff }
        calls := s.calls ++ [.NoteOff dTimeOff]
        nCurrentKey := -1 }
    else s
  else s

/-! ## Certificate for the range of the analogue saw

The partial sum `sum_{k=1}^{99} sin(k x) / k` takes its extreme values at the zeros of its
derivative, which are the angles `c * π / 100` with `c` odd and `c * π / 99` with `c` even.  The
tables and the checks below bound the sum at each of these angles in integer arithmetic; the
theorems further down prove that a passed check is a bound of the real sum. -/

/-- Table, in units of `10^-8`, of upper bounds of `sin (m * π / 100)`, `m = 0, ..., 50`. -/
def sinHi100 (m : ℕ) : ℕ :=
  List.getD [
    0, 3141084, 6279068, 9410855, 12533356, 15643489, 18738186, 21814392,
    24869071, 27899211, 30901819, 33873934, 36812623, 39714986, 42578158, 45399315,
    48175673, 50904492, 53583080, 56208792, 58779040, 61291285, 63743050, 66131915,
    68455523, 70711581, 72897863, 75012212, 77052542, 79016839, 80903166, 82709662,
    84434543, 86076109, 87632741, 89102901, 90485141, 91778096, 92980492, 94091143,
    95108954, 96032920, 96862132, 97595773, 98233119, 98773544, 99216516, 99561600,
    99808458, 99956848, 100006627] m 0

/-- Table, in units of `10^-8`, of lower bounds of `sin (m * π / 100)`, `m = 0, ..., 50`. -/
def sinLo100 (m : ℕ) : ℕ :=
  List.getD [
    0, 3140983, 6278866, 9410553, 12532952, 15642982, 18737574, 21813674,
    24868245, 27898273, 30900768, 33872767, 36811336, 39713575, 42576619, 45397644,
    48173865, 50902542, 53580981, 56206540, 58776626, 61288704, 63740292, 66128972,
    68452385, 70708237, 72894300, 75008417, 77048499, 79012530, 80898569, 82704753,
    84429295, 86070489, 87626710, 89096415, 90478147, 91770534, 92972289, 94082216,
    95099203, 96022233, 96850374, 97582787, 98218725, 98757532, 99198642, 99541584,
    99785975, 99931527, 99978041] m 0

/-- Table, in units of `10^-8`, of upper bounds of `sin (m * π / 99)`, `m = 0, ..., 49`. -/
def sinHi99 (m : ℕ) : ℕ :=
  List.getD [
    0, 3172801, 6342408, 9505628, 12659279, 15800183, 18925180, 22031122,
    25114883, 28173357, 31203466, 34202159, 37166417, 40093254, 42979725, 45822923,
    48619986, 51368098, 54064491, 56706452, 59291320, 61816493, 64279428, 66677647,
    69008734, 71270343, 73460198, 75576092, 77615897, 79577559, 81459103, 83258634,
    84974343, 86604501, 88147468, 89601691, 90965706, 92238140, 93417714, 94503239,
    95493625, 96387875, 97185090, 97884469, 98485308, 98987005, 99389056, 99691059,
    99892713, 99993816] m 0

/-- Table, in units of `10^-8`, of lower bounds of `sin (m * π / 99)`, `m = 0, ..., 49`. -/
def sinLo99 (m : ℕ) : ℕ :=
  List.getD [
    0, 3172699, 6342204, 9505323, 12658870, 15799671, 18924562, 22030396,
    25114047, 28172410, 31202404, 34200979, 37165115, 40091827, 42978168, 45821232,
    48618156, 51366123, 54062366, 56704169, 59288873, 61813875, 64276631, 66674660,
    69005548, 71266946, 73456576, 75572232, 77611781, 79573168, 81454414, 83253623,
    84968979, 86598749, 88141286, 89595032, 90958513, 92230348, 93409243, 94494000,
    95483511, 96376761, 97172831, 97870895, 98470222, 98970178, 99370224, 99669915,
    99868904, 99966937] m 0

/-- The certificate for one angle `c * π / D`: starting from the offset `6 * 10^8 * L`, with
`L = lcm(1, ..., 99)`, add for each harmonic `k + 1` whose sine is bounded above by the table
entry `hi m / 10^8` the integer `hi m * (L / (k + 1))`, and subtract for each harmonic whose
sine is bounded above by `-(lo m / 10^8)` the integer `lo m * (L / (k + 1))`; `m` is the index
of the angle folded into the first quadrant. -/
def sawAcc (D : ℕ) (hi lo : ℕ → ℕ) (c : ℕ) : ℕ → ℕ
  | 0 => 600000000 * 69720375229712477164533808935312303556800
  | k + 1 =>
    if ((k + 1) * c) % (2 * D) ≤ D then
      sawAcc D hi lo c k
        + hi (if 2 * (((k + 1) * c) % (2 * D)) ≤ D then ((k + 1) * c) % (2 * D)
              else D - ((k + 1) * c) % (2 * D))
          * (69720375229712477164533808935312303556800 / (k + 1))
    else
      sawAcc D hi lo c k
        - lo (if 2 * (((k + 1) * c) % (2 * D) - D) ≤ D then ((k + 1) * c) % (2 * D) - D
              else D - (((k + 1) * c) % (2 * D) - D))
          * (69720375229712477164533808935312303556800 / (k + 1))

/-- The check that the certificate of the angle `c * π / D` stays below
`1.17 * 3.1415 / 2`, in the scale of `sawAcc`. -/
def sawOK (D : ℕ) (hi lo : ℕ → ℕ) (c : ℕ) : Bool :=
  decide (2000000 * sawAcc D hi lo c 99
    ≤ (117 * 31415 * 100000000 + 2000000 * 600000000)
        * 69720375229712477164533808935312303556800)

/-- The check that the table entries `lo m` and `hi m`, in units of `10^-8`, enclose the
Taylor polynomials of degree 7 and 9 of the sine at `m * π / D`, evaluated with
`3.1415 < π < 3.1416`; all terms are moved to the side where they are non-negative. -/
def encOK (D : ℕ) (hi lo : ℕ → ℕ) (m : ℕ) : Bool :=
  decide (100000000 * ((31416 * m) * (10000 * D) ^ 8 * 362880
        + (31416 * m) ^ 5 * (10000 * D) ^ 4 * 3024 + (31416 * m) ^ 9)
      ≤ hi m * ((10000 * D) ^ 9 * 362880)
        + 100000000 * ((31415 * m) ^ 3 * (10000 * D) ^ 6 * 60480
          + (31415 * m) ^ 7 * (10000 * D) ^ 2 * 72))
  && decide (lo m * ((10000 * D) ^ 7 * 5040)
        + 100000000 * ((31416 * m) ^ 3 * (10000 * D) ^ 4 * 840 + (31416 * m) ^ 7)
      ≤ 100000000 * ((31415 * m) * (10000 * D) ^ 6 * 5040
          + (31415 * m) ^ 5 * (10000 * D) ^ 2 * 42))

/-! ## Arithmetic on finite values -/

theorem Dbl.div_fin (x : K) {y : K} (hy : y ≠ 0) :
    Dbl.div (.fin x) (.fin y) = .fin (x / y) := by
  simp [Dbl.div, hy]

theorem Dbl.mul_fin (x y : K) : Dbl.mul (.fin x) (.fin y) = .fin (x * y) := rfl

theorem Dbl.add_fin (x y : K) : Dbl.add (.fin x) (.fin y) = .fin (x + y) := rfl

theorem clampAmplitude_fin (v : K) : clampAmplitude (.fin v) = .fin (clamp v) := by
  unfold clampAmplitude clamp
  by_cases h : v ≤ 1 / 10000
  · simp only [Dbl.le, h, decide_True, if_true]
  · simp only [Dbl.le, h, decide_False, if_false, Bool.false_eq_true]

/-! ## The four phases of `GetAmplitude` -/

/-- Attack branch: the gate is open, `dLifeTime <= dAttackTime`, and neither of the two later
`if` statements fires. -/
theorem GetAmplitude_attack (e : sEnvelopeADSR K) (dTime : K) (hOn : e.bNoteOn = true)
    (hA : e.dAttackTime ≠ 0) (h1 : dTime - e.dTriggerOnTime ≤ e.dAttackTime)
    (h2 : dTime - e.dTriggerOnTime ≤ e.dAttackTime + e.dDecayTime) :
    e.GetAmplitude dTime
      = .fin (clamp ((dTime - e.dTriggerOnTime) / e.dAttackTime * e.dStartAmplitude)) := by
  have h3 : ¬ (dTime - e.dTriggerOnTime > e.dAttackTime) := not_lt.mpr h1
  have h4 : ¬ (dTime - e.dTriggerOnTime > e.dAttackTime + e.dDecayTime) := not_lt.mpr h2
  simp only [sEnvelopeADSR.GetAmplitude, hOn, if_true, h1, h3, h4, false_and, if_false,
    Dbl.div_fin _ hA, Dbl.mul_fin, clampAmplitude_fin]

/-- Decay branch: the gate is open and `dAttackTime < dLifeTime <= dAttackTime + dDecayTime`. -/
theorem GetAmplitude_decay (e : sEnvelopeADSR K) (dTime : K) (hOn : e.bNoteOn = true)
    (hD : e.dDecayTime ≠ 0) (h1 : e.dAttackTime < dTime - e.dTriggerOnTime)
    (h2 : dTime - e.dTriggerOnTime ≤ e.dAttackTime + e.dDecayTime) :
    e.GetAmplitude dTime
      = .fin (clamp ((dTime - e.dTriggerOnTime - e.dAttackTime) / e.dDecayTime
          * (e.dSustainAmplitude - e.dStartAmplitude) + e.dStartAmplitude)) := by
  have h3 : dTime - e.dTriggerOnTime > e.dAttackTime := h1
  have h4 : ¬ (dTime - e.dTriggerOnTime > e.dAttackTime + e.dDecayTime) := not_lt.mpr h2
  simp only [sEnvelopeADSR.GetAmplitude, hOn, if_true, h2, h3, h4, and_self, if_false,
    Dbl.div_fin _ hD, Dbl.mul_fin, Dbl.add_fin, clampAmplitude_fin]

/-- Sustain branch: the gate is open and `dLifeTime > dAttackTime + dDecayTime`; the last `if`
overwrites whatever the first two computed. -/
theorem GetAmplitude_sustain (e : sEnvelopeADSR K) (dTime : K) (hOn : e.bNoteOn = true)
    (h1 : dTime - e.dTriggerOnTime > e.dAttackTime + e.dDecayTime) :
    e.GetAmplitude dTime = .fin (clamp e.dSustainAmplitude) := by
  simp only [sEnvelopeADSR.GetAmplitude, hOn, if_true, h1, clampAmplitude_fin]

/-- Release branch: the gate is closed. -/
theorem GetAmplitude_release (e : sEnvelopeADSR K) (dTime : K) (hOff : e.bNoteOn = false)
    (hR : e.dReleaseTime ≠ 0) :
    e.GetAmplitude dTime
      = .fin (clamp ((dTime - e.dTriggerOffTime) / e.dReleaseTime * (0 - e.dSustainAmplitude)
          + e.dSustainAmplitude)) := by
  simp only [sEnvelopeADSR.GetAmplitude, hOff, Bool.false_eq_true, if_false,
    Dbl.div_fin _ hR, Dbl.mul_fin, Dbl.add_fin, clampAmplitude_fin]

/-- When no divisor is zero, the value handed to the final clamp is finite. -/
theorem GetAmplitude_finite (e : sEnvelopeADSR K) (dTime : K) (hA : e.dAttackTime ≠ 0)
    (hD : e.dDecayTime ≠ 0) (hR : e.dReleaseTime ≠ 0) :
    ∃ v : K, e.GetAmplitude dTime = .fin (clamp v) := by
  cases hOn : e.bNoteOn with
  | false => exact ⟨_, GetAmplitude_release e dTime hOn hR⟩
  | true =>
    rcases lt_or_le (e.dAttackTime + e.dDecayTime) (dTime - e.dTriggerOnTime) with h | h
    · exact ⟨_, GetAmplitude_sustain e dTime hOn h⟩
    · rcases le_or_lt (dTime - e.dTriggerOnTime) e.dAttackTime with h1 | h1
      · exact ⟨_, GetAmplitude_attack e dTime hOn hA h1 h⟩
      · exact ⟨_, GetAmplitude_decay e dTime hOn hD h1 h⟩

/-! ## The clamp -/

theorem clamp_eq_zero_or_gt (v : K) : clamp v = 0 ∨ 1 / 10000 < clamp v := by
  unfold clamp
  by_cases h : v ≤ 1 / 10000
  · left; rw [if_pos h]
  · right; rw [if_neg h]; exact not_le.mp h

theorem clamp_nonneg (v : K) : 0 ≤ clamp v := by
  rcases clamp_eq_zero_or_gt v with h | h
  · rw [h]
  · exact le_of_lt (lt_trans (by norm_num) h)

theorem clamp_le_one {v : K} (hv : v ≤ 1) : clamp v ≤ 1 := by
  unfold clamp
  by_cases h : v ≤ 1 / 10000
  · rw [if_pos h]; exact zero_le_one
  · rw [if_neg h]; exact hv

theorem clamp_of_gt {v : K} (hv : 1 / 10000 < v) : clamp v = v := by
  unfold clamp
  rw [if_neg (not_le.mpr hv)]

/-! ## The decay ramp -/

/-- A point of the segment between two levels above the clamp threshold is above it. -/
theorem decay_ramp_gt {S L x : K} (hS : 1 / 10000 < S) (hL : 1 / 10000 < L)
    (hx0 : 0 ≤ x) (hx1 : x ≤ 1) : 1 / 10000 < x * (L - S) + S := by
  rcases le_total L S with h | h
  · have : 0 ≤ (1 - x) * (S - L) := mul_nonneg (by linarith) (by linarith)
    nlinarith
  · have : 0 ≤ x * (L - S) := mul_nonneg hx0 (by linarith)
    linarith

/-- A step shorter than `ε * D / (|L - S| + 1)` moves the decay ramp by less than `ε`. -/
theorem decay_ramp_step_lt {S L D d ε : K} (hD : 0 < D)
    (hd : |d| < ε * D / (|L - S| + 1)) : |d / D * (L - S)| < ε := by
  have hM : 0 < |L - S| + 1 := by positivity
  have h1 : |d| * (|L - S| + 1) < ε * D := (lt_div_iff₀ hM).mp hd
  have h2 : |d| * |L - S| ≤ |d| * (|L - S| + 1) :=
    mul_le_mul_of_nonneg_left (by linarith) (abs_nonneg d)
  rw [abs_mul, abs_div, abs_of_pos hD, div_mul_eq_mul_div, div_lt_iff₀ hD]
  linarith

/-! ## The envelope contract -/

/-- C1: with `attackTime > 0`, `decayTime > 0` and the gate open, `GetAmplitude(time)` is
`clamp v`, where, with `lifeTime = time - triggerOnTime`, `v` is the attack ramp
`(lifeTime / attackTime) * startAmplitude` if `lifeTime ≤ attackTime`, the decay ramp
`startAmplitude + ((lifeTime - attackTime) / decayTime) * (sustainLevel - startAmplitude)` if
`attackTime < lifeTime ≤ attackTime + decayTime`, and `sustainLevel` if
`lifeTime > attackTime + decayTime`.  (The code does not use `lifeTime ≥ 0`: the statement holds
for every time, so in particular for those of the claim.) -/
theorem GetAmplitude_open_piecewise (e : sEnvelopeADSR K) (dTime : K)
    (hA : 0 < e.dAttackTime) (hD : 0 < e.dDecayTime) (hOn : e.bNoteOn = true) :
    (dTime - e.dTriggerOnTime ≤ e.dAttackTime →
      e.GetAmplitude dTime
        = .fin (clamp ((dTime - e.dTriggerOnTime) / e.dAttackTime * e.dStartAmplitude))) ∧
    (e.dAttackTime < dTime - e.dTriggerOnTime ∧
        dTime - e.dTriggerOnTime ≤ e.dAttackTime + e.dDecayTime →
      e.GetAmplitude dTime
        = .fin (clamp (e.dStartAmplitude
            + ((dTime - e.dTriggerOnTime - e.dAttackTime) / e.dDecayTime)
              * (e.dSustainAmplitude - e.dStartAmplitude)))) ∧
    (dTime - e.dTriggerOnTime > e.dAttackTime + e.dDecayTime →
      e.GetAmplitude dTime = .fin (clamp e.dSustainAmplitude)) := by
  refine ⟨fun h => ?_, fun h => ?_, fun h => ?_⟩
  · exact GetAmplitude_attack e dTime hOn hA.ne' h (by linarith)
  · rw [GetAmplitude_decay e dTime hOn hD.ne' h.1 h.2, add_comm]
  · exact GetAmplitude_sustain e dTime hOn h

/-- Witness of C1: the worked example after `NoteOn(0)`, in its decay phase at `time = 0.105`,
where the amplitude is `0.9`. -/
theorem GetAmplitude_open_piecewise_witness :
    (0 < (testEnvelope.NoteOn 0).dAttackTime ∧ 0 < (testEnvelope.NoteOn 0).dDecayTime ∧
      (testEnvelope.NoteOn 0).bNoteOn = true) ∧
    (testEnvelope.NoteOn 0).GetAmplitude (105 / 1000) = .fin (9 / 10) := by
  have hA : 0 < (testEnvelope.NoteOn 0).dAttackTime := by
    norm_num [testEnvelope, sEnvelopeADSR.init4, sEnvelopeADSR.NoteOn]
  have hD : 0 < (testEnvelope.NoteOn 0).dDecayTime := by
    norm_num [testEnvelope, sEnvelopeADSR.init4, sEnvelopeADSR.NoteOn]
  refine ⟨⟨hA, hD, rfl⟩, ?_⟩
  rw [(GetAmplitude_open_piecewise (testEnvelope.NoteOn 0) (105 / 1000) hA hD rfl).2.1
    (by norm_num [testEnvelope, sEnvelopeADSR.init4, sEnvelopeADSR.NoteOn])]
  norm_num [testEnvelope, sEnvelopeADSR.init4, sEnvelopeADSR.NoteOn, clamp]

/-- C2: with `releaseTime > 0` and the gate closed, `GetAmplitude(time)` is the clamped linear
ramp `sustainLevel * (1 - (time - triggerOffTime) / releaseTime)`; that ramp is `sustainLevel`
at `triggerOffTime` and `0` at `triggerOffTime + releaseTime` (where `GetAmplitude` returns
`clamp sustainLevel` and `0`); and the result does not depend on `triggerOnTime`.  The formula
holds at every time, so in particular on `[triggerOffTime, triggerOffTime + releaseTime]`. -/
theorem GetAmplitude_release_ramp (e : sEnvelopeADSR K) (dTime : K)
    (hR : 0 < e.dReleaseTime) (hOff : e.bNoteOn = false) :
    e.GetAmplitude dTime
      = .fin (clamp (e.dSustainAmplitude
          * (1 - (dTime - e.dTriggerOffTime) / e.dReleaseTime))) ∧
    e.dSustainAmplitude * (1 - (e.dTriggerOffTime - e.dTriggerOffTime) / e.dReleaseTime)
      = e.dSustainAmplitude ∧
    e.dSustainAmplitude
        * (1 - (e.dTriggerOffTime + e.dReleaseTime - e.dTriggerOffTime) / e.dReleaseTime) = 0 ∧
    e.GetAmplitude e.dTriggerOffTime = .fin (clamp e.dSustainAmplitude) ∧
    e.GetAmplitude (e.dTriggerOffTime + e.dReleaseTime) = .fin 0 ∧
    ∀ dOn t : K, ({ e with dTriggerOnTime := dOn } : sEnvelopeADSR K).GetAmplitude t
      = e.GetAmplitude t := by
  have hR0 : e.dReleaseTime ≠ 0 := hR.ne'
  have key : ∀ t : K, e.GetAmplitude t
      = .fin (clamp (e.dSustainAmplitude * (1 - (t - e.dTriggerOffTime) / e.dReleaseTime))) := by
    intro t
    rw [GetAmplitude_release e t hOff hR0]
    congr 2
    ring
  have hEnd : e.dSustainAmplitude
      * (1 - (e.dTriggerOffTime + e.dReleaseTime - e.dTriggerOffTime) / e.dReleaseTime) = 0 := by
    rw [add_sub_cancel_left, div_self hR0, sub_self, mul_zero]
  refine ⟨key dTime, by simp, hEnd, ?_, ?_, ?_⟩
  · rw [key]; simp
  · rw [key, hEnd]; simp [clamp]
  · intro dOn t
    simp only [sEnvelopeADSR.GetAmplitude, hOff, Bool.false_eq_true, if_false]

/-- Witness of C2: the worked example after `NoteOn(0)`, `NoteOff(0.5)`, midway through its
release at `time = 0.55`, where the amplitude is `0.4`. -/
theorem GetAmplitude_release_ramp_witness :
    (0 < ((testEnvelope.NoteOn 0).NoteOff (1 / 2)).dReleaseTime ∧
      ((testEnvelope.NoteOn 0).NoteOff (1 / 2)).bNoteOn = false) ∧
    ((testEnvelope.NoteOn 0).NoteOff (1 / 2)).GetAmplitude (55 / 100) = .fin (4 / 10) := by
  have hR : 0 < ((testEnvelope.NoteOn 0).NoteOff (1 / 2)).dReleaseTime := by
    norm_num [testEnvelope, sEnvelopeADSR.init4, sEnvelopeADSR.NoteOn, sEnvelopeADSR.NoteOff]
  refine ⟨⟨hR, rfl⟩, ?_⟩
  rw [(GetAmplitude_release_ramp ((testEnvelope.NoteOn 0).NoteOff (1 / 2)) (55 / 100) hR rfl).1]
  norm_num [testEnvelope, sEnvelopeADSR.init4, sEnvelopeADSR.NoteOn, sEnvelopeADSR.NoteOff, clamp]

/-- C3: the envelope built with `attack=0.1, decay=0.01, sustain=0.8, release=0.1` has
`startAmplitude = 1`; after `NoteOn(0)` its amplitude is `0` at `0`, `1` at `0.1`, `0.8` at
`0.11` and `0.8` at `0.5`; after a following `NoteOff(0.5)` it is `0.4` at `0.55` and `0` at
`0.6`. -/
theorem testEnvelope_amplitudes :
    testEnvelope.dStartAmplitude = 1 ∧
    (testEnvelope.NoteOn 0).GetAmplitude 0 = .fin 0 ∧
    (testEnvelope.NoteOn 0).GetAmplitude (1 / 10) = .fin 1 ∧
    (testEnvelope.NoteOn 0).GetAmplitude (11 / 100) = .fin (8 / 10) ∧
    (testEnvelope.NoteOn 0).GetAmplitude (5 / 10) = .fin (8 / 10) ∧
    ((testEnvelope.NoteOn 0).NoteOff (5 / 10)).GetAmplitude (55 / 100) = .fin (4 / 10) ∧
    ((testEnvelope.NoteOn 0).NoteOff (5 / 10)).GetAmplitude (6 / 10) = .fin 0 := by
  refine ⟨rfl, ?_, ?_, ?_, ?_, ?_, ?_⟩ <;>
    norm_num [sEnvelopeADSR.GetAmplitude, sEnvelopeADSR.NoteOn, sEnvelopeADSR.NoteOff,
      testEnvelope, sEnvelopeADSR.init4, clampAmplitude, Dbl.div, Dbl.mul, Dbl.add, Dbl.le]

/-- C4 (the code at the failing input): for the wired instance `envelope(0.0, 0.1, 1.0, 0.1)`,
whose `attackTime` is 0, `GetAmplitude` called at the trigger time itself (`lifeTime = 0`)
enters the attack branch, evaluates `0.0 / 0.0` and returns NaN, which the final clamp lets
through: the result is not `startAmplitude = 1`. -/
theorem envelope_GetAmplitude_at_trigger :
    ∀ t : ℚ,
      (envelope : sEnvelopeADSR ℚ).dAttackTime = 0 ∧
      Dbl.div (.fin (t - ((envelope : sEnvelopeADSR ℚ).NoteOn t).dTriggerOnTime))
        (.fin ((envelope : sEnvelopeADSR ℚ).NoteOn t).dAttackTime) = .nan ∧
      ((envelope : sEnvelopeADSR ℚ).NoteOn t).GetAmplitude t = .nan ∧
      ((envelope : sEnvelopeADSR ℚ).NoteOn t).GetAmplitude t
        ≠ .fin ((envelope : sEnvelopeADSR ℚ).NoteOn t).dStartAmplitude := by
  intro t
  have h : ((envelope : sEnvelopeADSR ℚ).NoteOn t).GetAmplitude t = .nan := by
    norm_num [sEnvelopeADSR.GetAmplitude, sEnvelopeADSR.NoteOn, envelope, sEnvelopeADSR.init4,
      clampAmplitude, Dbl.div, Dbl.mul, Dbl.add, Dbl.le]
  refine ⟨rfl, ?_, h, ?_⟩
  · simp [sEnvelopeADSR.NoteOn, envelope, sEnvelopeADSR.init4, Dbl.div]
  · rw [h]; simp

/-- C5: with `decayTime = 0`, `attackTime > 0` and the gate open, the condition of the decay
branch, `lifeTime > attackTime && lifeTime <= attackTime + decayTime`, holds at no time, so that
the division by `decayTime` is never evaluated; for every `lifeTime > attackTime` the result is
`clamp sustainLevel`; and at every time the result is a finite number. -/
theorem GetAmplitude_zero_decay (e : sEnvelopeADSR K)
    (hD : e.dDecayTime = 0) (hA : 0 < e.dAttackTime) (hOn : e.bNoteOn = true) :
    (∀ t : K, ¬ (t - e.dTriggerOnTime > e.dAttackTime ∧
        t - e.dTriggerOnTime ≤ e.dAttackTime + e.dDecayTime)) ∧
    (∀ t : K, t - e.dTriggerOnTime > e.dAttackTime →
        e.GetAmplitude t = .fin (clamp e.dSustainAmplitude)) ∧
    (∀ t : K, ∃ a : K, e.GetAmplitude t = .fin a) := by
  refine ⟨fun t h => ?_, fun t h => ?_, fun t => ?_⟩
  · rw [hD, add_zero] at h
    exact absurd h.1 (not_lt.mpr h.2)
  · exact GetAmplitude_sustain e t hOn (by rw [hD, add_zero]; exact h)
  · rcases le_or_lt (t - e.dTriggerOnTime) e.dAttackTime with h | h
    · exact ⟨_, GetAmplitude_attack e t hOn hA.ne' h (by rw [hD, add_zero]; exact h)⟩
    · exact ⟨_, GetAmplitude_sustain e t hOn (by rw [hD, add_zero]; exact h)⟩

/-- Witness of C5: attack `0.1`, decay `0`, sustain `0.8`, `NoteOn(0)`: the amplitude at
`time = 0.2` is the sustain level. -/
theorem GetAmplitude_zero_decay_witness :
    (((sEnvelopeADSR.init4 (1 / 10) 0 (8 / 10) (1 / 10) : sEnvelopeADSR ℚ).NoteOn 0).dDecayTime = 0 ∧
      0 < ((sEnvelopeADSR.init4 (1 / 10) 0 (8 / 10) (1 / 10) : sEnvelopeADSR ℚ).NoteOn 0).dAttackTime ∧
      ((sEnvelopeADSR.init4 (1 / 10) 0 (8 / 10) (1 / 10) : sEnvelopeADSR ℚ).NoteOn 0).bNoteOn = true) ∧
    ((sEnvelopeADSR.init4 (1 / 10) 0 (8 / 10) (1 / 10) : sEnvelopeADSR ℚ).NoteOn 0).GetAmplitude
      (2 / 10) = .fin (8 / 10) := by
  have hA : 0 < ((sEnvelopeADSR.init4 (1 / 10) 0 (8 / 10) (1 / 10) :
      sEnvelopeADSR ℚ).NoteOn 0).dAttackTime := by
    norm_num [sEnvelopeADSR.init4, sEnvelopeADSR.NoteOn]
  refine ⟨⟨rfl, hA, rfl⟩, ?_⟩
  rw [(GetAmplitude_zero_decay _ rfl hA rfl).2.1 (2 / 10)
    (by norm_num [sEnvelopeADSR.init4, sEnvelopeADSR.NoteOn])]
  norm_num [sEnvelopeADSR.init4, sEnvelopeADSR.NoteOn, clamp]

/-- C6: with `attackTime > 0`, `decayTime > 0`, `startAmplitude = 1`, `sustainLevel ≤ 1` and
the gate open, `GetAmplitude(time)` is, at every time, a number in `[0, 1]`.  (The lower bound
comes from the final clamp, so the claim's `0 ≤ sustainLevel` is not needed: the statement
holds for every `sustainLevel ≤ 1`, in particular for those in `[0, 1]`.) -/
theorem GetAmplitude_open_unit_interval (e : sEnvelopeADSR K) (dTime : K)
    (hA : 0 < e.dAttackTime) (hD : 0 < e.dDecayTime) (hS : e.dStartAmplitude = 1)
    (hs1 : e.dSustainAmplitude ≤ 1) (hOn : e.bNoteOn = true) :
    ∃ a : K, e.GetAmplitude dTime = .fin a ∧ 0 ≤ a ∧ a ≤ 1 := by
  rcases lt_or_le (e.dAttackTime + e.dDecayTime) (dTime - e.dTriggerOnTime) with h | h
  · exact ⟨_, GetAmplitude_sustain e dTime hOn h, clamp_nonneg _, clamp_le_one hs1⟩
  · rcases le_or_lt (dTime - e.dTriggerOnTime) e.dAttackTime with h1 | h1
    · refine ⟨_, GetAmplitude_attack e dTime hOn hA.ne' h1 h, clamp_nonneg _, clamp_le_one ?_⟩
      rw [hS, mul_one]
      exact (div_le_one hA).mpr h1
    · refine ⟨_, GetAmplitude_decay e dTime hOn hD.ne' h1 h, clamp_nonneg _, clamp_le_one ?_⟩
      have hx : 0 ≤ (dTime - e.dTriggerOnTime - e.dAttackTime) / e.dDecayTime :=
        div_nonneg (by linarith) hD.le
      have hm : (dTime - e.dTriggerOnTime - e.dAttackTime) / e.dDecayTime
          * (e.dSustainAmplitude - e.dStartAmplitude) ≤ 0 :=
        mul_nonpos_of_nonneg_of_nonpos hx (by rw [hS]; linarith)
      rw [hS] at hm ⊢
      linarith

/-- Witness of C6: the worked example after `NoteOn(0)` at `time = 0.05`. -/
theorem GetAmplitude_open_unit_interval_witness :
    (0 < (testEnvelope.NoteOn 0).dAttackTime ∧ 0 < (testEnvelope.NoteOn 0).dDecayTime ∧
      (testEnvelope.NoteOn 0).dStartAmplitude = 1 ∧
      0 ≤ (testEnvelope.NoteOn 0).dSustainAmplitude ∧
      (testEnvelope.NoteOn 0).dSustainAmplitude ≤ 1 ∧
      (testEnvelope.NoteOn 0).bNoteOn = true) ∧
    ∃ a : ℚ, (testEnvelope.NoteOn 0).GetAmplitude (5 / 100) = .fin a ∧ 0 ≤ a ∧ a ≤ 1 := by
  have hA : 0 < (testEnvelope.NoteOn 0).dAttackTime := by
    norm_num [testEnvelope, sEnvelopeADSR.init4, sEnvelopeADSR.NoteOn]
  have hD : 0 < (testEnvelope.NoteOn 0).dDecayTime := by
    norm_num [testEnvelope, sEnvelopeADSR.init4, sEnvelopeADSR.NoteOn]
  have hs0 : 0 ≤ (testEnvelope.NoteOn 0).dSustainAmplitude := by
    norm_num [testEnvelope, sEnvelopeADSR.init4, sEnvelopeADSR.NoteOn]
  have hs1 : (testEnvelope.NoteOn 0).dSustainAmplitude ≤ 1 := by
    norm_num [testEnvelope, sEnvelopeADSR.init4, sEnvelopeADSR.NoteOn]
  exact ⟨⟨hA, hD, rfl, hs0, hs1, rfl⟩,
    GetAmplitude_open_unit_interval (testEnvelope.NoteOn 0) (5 / 100) hA hD rfl hs1 rfl⟩

/-- C7: when the attack, decay and release times are non-zero, `GetAmplitude` returns, in every
state (gate open or closed) and at every time, a finite number that is either exactly `0` or
strictly greater than `0.0001`; in particular it is never negative. -/
theorem GetAmplitude_zero_or_above_floor (e : sEnvelopeADSR K) (dTime : K)
    (hA : e.dAttackTime ≠ 0) (hD : e.dDecayTime ≠ 0) (hR : e.dReleaseTime ≠ 0) :
    ∃ a : K, e.GetAmplitude dTime = .fin a ∧ (a = 0 ∨ 1 / 10000 < a) ∧ 0 ≤ a := by
  obtain ⟨v, hv⟩ := GetAmplitude_finite e dTime hA hD hR
  exact ⟨clamp v, hv, clamp_eq_zero_or_gt v, clamp_nonneg v⟩

/-- Witness of C7: the worked example in its release, after `NoteOn(0)` and `NoteOff(0.5)`, at
`time = 0.7`, past the end of the release ramp. -/
theorem GetAmplitude_zero_or_above_floor_witness :
    (((testEnvelope.NoteOn 0).NoteOff (1 / 2)).dAttackTime ≠ 0 ∧
      ((testEnvelope.NoteOn 0).NoteOff (1 / 2)).dDecayTime ≠ 0 ∧
      ((testEnvelope.NoteOn 0).NoteOff (1 / 2)).dReleaseTime ≠ 0) ∧
    ∃ a : ℚ, ((testEnvelope.NoteOn 0).NoteOff (1 / 2)).GetAmplitude (7 / 10) = .fin a ∧
      (a = 0 ∨ 1 / 10000 < a) ∧ 0 ≤ a := by
  have hA : ((testEnvelope.NoteOn 0).NoteOff (1 / 2)).dAttackTime ≠ 0 := by
    norm_num [testEnvelope, sEnvelopeADSR.init4, sEnvelopeADSR.NoteOn, sEnvelopeADSR.NoteOff]
  have hD : ((testEnvelope.NoteOn 0).NoteOff (1 / 2)).dDecayTime ≠ 0 := by
    norm_num [testEnvelope, sEnvelopeADSR.init4, sEnvelopeADSR.NoteOn, sEnvelopeADSR.NoteOff]
  have hR : ((testEnvelope.NoteOn 0).NoteOff (1 / 2)).dReleaseTime ≠ 0 := by
    norm_num [testEnvelope, sEnvelopeADSR.init4, sEnvelopeADSR.NoteOn, sEnvelopeADSR.NoteOff]
  exact ⟨⟨hA, hD, hR⟩, GetAmplitude_zero_or_above_floor _ (7 / 10) hA hD hR⟩

/-- C8: `NoteOn(t)` sets `bNoteOn = true` and `dTriggerOnTime = t` and leaves the attack, decay,
sustain, release, start amplitude and `dTriggerOffTime` unchanged; `NoteOff(t)` sets
`bNoteOn = false` and `dTriggerOffTime = t` and leaves the attack, decay, sustain, release,
start amplitude and `dTriggerOnTime` unchanged. -/
theorem NoteOn_NoteOff_frame {T : Type} (e : sEnvelopeADSR T) (t : T) :
    ((e.NoteOn t).bNoteOn = true ∧ (e.NoteOn t).dTriggerOnTime = t ∧
      (e.NoteOn t).dAttackTime = e.dAttackTime ∧ (e.NoteOn t).dDecayTime = e.dDecayTime ∧
      (e.NoteOn t).dSustainAmplitude = e.dSustainAmplitude ∧
      (e.NoteOn t).dReleaseTime = e.dReleaseTime ∧
      (e.NoteOn t).dStartAmplitude = e.dStartAmplitude ∧
      (e.NoteOn t).dTriggerOffTime = e.dTriggerOffTime) ∧
    ((e.NoteOff t).bNoteOn = false ∧ (e.NoteOff t).dTriggerOffTime = t ∧
      (e.NoteOff t).dAttackTime = e.dAttackTime ∧ (e.NoteOff t).dDecayTime = e.dDecayTime ∧
      (e.NoteOff t).dSustainAmplitude = e.dSustainAmplitude ∧
      (e.NoteOff t).dReleaseTime = e.dReleaseTime ∧
      (e.NoteOff t).dStartAmplitude = e.dStartAmplitude ∧
      (e.NoteOff t).dTriggerOnTime = e.dTriggerOnTime) :=
  ⟨⟨rfl, rfl, rfl, rfl, rfl, rfl, rfl, rfl⟩, ⟨rfl, rfl, rfl, rfl, rfl, rfl, rfl, rfl⟩⟩

/-- C9 (retrigger): for an envelope with `attackTime > 0` (and `decayTime ≥ 0`, the domain of
the data model) in any prior state, after `NoteOn(t)` the amplitude at time `t` is `0`; at every
later time `t2` it is the clamped attack / decay / sustain curve at `lifeTime = t2 - t`; and it
does not depend on the previous gate state, `dTriggerOffTime` or previous `dTriggerOnTime`.
In particular `NoteOn(0)`, `NoteOff(0.05)`, `NoteOn(0.06)` gives `GetAmplitude(0.06) = 0`. -/
theorem NoteOn_retrigger (e : sEnvelopeADSR K) (t : K)
    (hA : 0 < e.dAttackTime) (hD : 0 ≤ e.dDecayTime) :
    (e.NoteOn t).GetAmplitude t = .fin 0 ∧
    (∀ t2 : K, t ≤ t2 →
      (t2 - t ≤ e.dAttackTime →
        (e.NoteOn t).GetAmplitude t2
          = .fin (clamp ((t2 - t) / e.dAttackTime * e.dStartAmplitude))) ∧
      (e.dAttackTime < t2 - t ∧ t2 - t ≤ e.dAttackTime + e.dDecayTime →
        (e.NoteOn t).GetAmplitude t2
          = .fin (clamp (e.dStartAmplitude
              + ((t2 - t - e.dAttackTime) / e.dDecayTime)
                * (e.dSustainAmplitude - e.dStartAmplitude)))) ∧
      (t2 - t > e.dAttackTime + e.dDecayTime →
        (e.NoteOn t).GetAmplitude t2 = .fin (clamp e.dSustainAmplitude))) ∧
    (∀ (gate : Bool) (dOff dOn t2 : K),
      (({ e with bNoteOn := gate, dTriggerOffTime := dOff, dTriggerOnTime := dOn } :
          sEnvelopeADSR K).NoteOn t).GetAmplitude t2 = (e.NoteOn t).GetAmplitude t2) ∧
    (((e.NoteOn 0).NoteOff (5 / 100)).NoteOn (6 / 100)).GetAmplitude (6 / 100) = .fin 0 := by
  have hOn : ∀ s : K, (e.NoteOn s).bNoteOn = true := fun _ => rfl
  have zero : ∀ (e2 : sEnvelopeADSR K) (s : K), e2.dAttackTime = e.dAttackTime →
      e2.dDecayTime = e.dDecayTime → (e2.NoteOn s).GetAmplitude s = .fin 0 := by
    intro e2 s h1 h2
    have hA2 : (e2.NoteOn s).dAttackTime = e.dAttackTime := h1
    have hD2 : (e2.NoteOn s).dDecayTime = e.dDecayTime := h2
    have hT : s - (e2.NoteOn s).dTriggerOnTime = 0 := sub_self s
    rw [GetAmplitude_attack (e2.NoteOn s) s rfl (by rw [hA2]; exact hA.ne')
      (by rw [hT, hA2]; exact hA.le) (by rw [hT, hA2, hD2]; linarith), hT]
    simp [clamp]
  refine ⟨zero e t rfl rfl, fun t2 _ => ⟨fun h => ?_, fun h => ?_, fun h => ?_⟩, ?_, ?_⟩
  · exact GetAmplitude_attack (e.NoteOn t) t2 rfl hA.ne' h
      (le_trans h (le_add_of_nonneg_right hD))
  · have hD0 : e.dDecayTime ≠ 0 := by
      intro h0
      rw [h0, add_zero] at h
      exact absurd h.1 (not_lt.mpr h.2)
    rw [GetAmplitude_decay (e.NoteOn t) t2 rfl hD0 h.1 h.2, add_comm]
    rfl
  · exact GetAmplitude_sustain (e.NoteOn t) t2 rfl h
  · intro gate dOff dOn t2
    rfl
  · exact zero ((e.NoteOn 0).NoteOff (5 / 100)) (6 / 100) rfl rfl

/-- Witness of C9: the worked example, retriggered mid-release:
`NoteOn(0)`, `NoteOff(0.05)`, `NoteOn(0.06)`; the amplitude is `0` at `0.06` and back on the
attack ramp, `0.4`, at `0.1`. -/
theorem NoteOn_retrigger_witness :
    (0 < ((testEnvelope.NoteOn 0).NoteOff (5 / 100)).dAttackTime ∧
      0 ≤ ((testEnvelope.NoteOn 0).NoteOff (5 / 100)).dDecayTime) ∧
    (((testEnvelope.NoteOn 0).NoteOff (5 / 100)).NoteOn (6 / 100)).GetAmplitude (6 / 100)
      = .fin 0 ∧
    (((testEnvelope.NoteOn 0).NoteOff (5 / 100)).NoteOn (6 / 100)).GetAmplitude (10 / 100)
      = .fin (4 / 10) := by
  have hA : 0 < ((testEnvelope.NoteOn 0).NoteOff (5 / 100)).dAttackTime := by
    norm_num [testEnvelope, sEnvelopeADSR.init4, sEnvelopeADSR.NoteOn, sEnvelopeADSR.NoteOff]
  have hD : 0 ≤ ((testEnvelope.NoteOn 0).NoteOff (5 / 100)).dDecayTime := by
    norm_num [testEnvelope, sEnvelopeADSR.init4, sEnvelopeADSR.NoteOn, sEnvelopeADSR.NoteOff]
  have h := NoteOn_retrigger ((testEnvelope.NoteOn 0).NoteOff (5 / 100)) (6 / 100) hA hD
  refine ⟨⟨hA, hD⟩, h.1, ?_⟩
  rw [(h.2.1 (10 / 100) (by norm_num)).1
    (by norm_num [testEnvelope, sEnvelopeADSR.init4, sEnvelopeADSR.NoteOn,
      sEnvelopeADSR.NoteOff])]
  norm_num [testEnvelope, sEnvelopeADSR.init4, sEnvelopeADSR.NoteOn, sEnvelopeADSR.NoteOff,
    clamp]

/-- C10: with `attackTime > 0`, `decayTime > 0`, `startAmplitude > 0.0001`,
`sustainLevel > 0.0001` and the gate open, `GetAmplitude` is continuous in the time at both
phase boundaries.  At `time = triggerOnTime + attackTime` the attack ramp and the decay ramp
both have the value `startAmplitude`, which is what `GetAmplitude` returns there, and
`GetAmplitude` stays within any `ε > 0` of it on a neighbourhood of that time; at
`time = triggerOnTime + attackTime + decayTime` the decay ramp has the value `sustainLevel`,
which is what `GetAmplitude` returns there, and `GetAmplitude` stays within any `ε > 0` of it
on a neighbourhood of that time. -/
theorem GetAmplitude_continuous_at_boundaries (e : sEnvelopeADSR K)
    (hA : 0 < e.dAttackTime) (hD : 0 < e.dDecayTime) (hS : 1 / 10000 < e.dStartAmplitude)
    (hL : 1 / 10000 < e.dSustainAmplitude) (hOn : e.bNoteOn = true) :
    (e.dAttackTime / e.dAttackTime * e.dStartAmplitude = e.dStartAmplitude ∧
      e.dStartAmplitude + ((e.dAttackTime - e.dAttackTime) / e.dDecayTime)
        * (e.dSustainAmplitude - e.dStartAmplitude) = e.dStartAmplitude ∧
      e.dStartAmplitude + ((e.dAttackTime + e.dDecayTime - e.dAttackTime) / e.dDecayTime)
        * (e.dSustainAmplitude - e.dStartAmplitude) = e.dSustainAmplitude) ∧
    e.GetAmplitude (e.dTriggerOnTime + e.dAttackTime) = .fin e.dStartAmplitude ∧
    e.GetAmplitude (e.dTriggerOnTime + e.dAttackTime + e.dDecayTime)
      = .fin e.dSustainAmplitude ∧
    (∀ ε : K, 0 < ε → ∃ δ : K, 0 < δ ∧ ∀ t : K,
      |t - (e.dTriggerOnTime + e.dAttackTime)| < δ →
        ∃ a : K, e.GetAmplitude t = .fin a ∧ |a - e.dStartAmplitude| < ε) ∧
    (∀ ε : K, 0 < ε → ∃ δ : K, 0 < δ ∧ ∀ t : K,
      |t - (e.dTriggerOnTime + e.dAttackTime + e.dDecayTime)| < δ →
        ∃ a : K, e.GetAmplitude t = .fin a ∧ |a - e.dSustainAmplitude| < ε) := by
  have hA0 : e.dAttackTime ≠ 0 := hA.ne'
  have hD0 : e.dDecayTime ≠ 0 := hD.ne'
  have hS0 : 0 < e.dStartAmplitude := lt_trans (by norm_num) hS
  have hM : 0 < |e.dSustainAmplitude - e.dStartAmplitude| + 1 := by positivity
  refine ⟨⟨?_, ?_, ?_⟩, ?_, ?_, ?_, ?_⟩
  · rw [div_self hA0, one_mul]
  · rw [sub_self, zero_div, zero_mul, add_zero]
  · rw [add_sub_cancel_left, div_self hD0, one_mul, add_sub_cancel]
  · rw [GetAmplitude_attack e _ hOn hA0 (by rw [add_sub_cancel_left])
      (by rw [add_sub_cancel_left]; linarith), add_sub_cancel_left, div_self hA0, one_mul,
      clamp_of_gt hS]
  · rw [GetAmplitude_decay e _ hOn hD0 (by linarith) (by linarith)]
    have : (e.dTriggerOnTime + e.dAttackTime + e.dDecayTime - e.dTriggerOnTime
        - e.dAttackTime) / e.dDecayTime = 1 := by
      rw [show e.dTriggerOnTime + e.dAttackTime + e.dDecayTime - e.dTriggerOnTime
        - e.dAttackTime = e.dDecayTime by ring, div_self hD0]
    rw [this, one_mul, sub_add_cancel, clamp_of_gt hL]
  · intro ε hε
    have hm : 0 < min ε (e.dStartAmplitude - 1 / 10000) := lt_min hε (by linarith)
    refine ⟨min e.dDecayTime
      (min (min ε (e.dStartAmplitude - 1 / 10000) * e.dAttackTime / e.dStartAmplitude)
        (ε * e.dDecayTime / (|e.dSustainAmplitude - e.dStartAmplitude| + 1))),
      lt_min hD (lt_min (by positivity) (by positivity)), fun t ht => ?_⟩
    have ht1 := lt_of_lt_of_le ht (min_le_left _ _)
    have ht2 := lt_of_lt_of_le ht (le_trans (min_le_right _ _) (min_le_left _ _))
    have ht3 := lt_of_lt_of_le ht (le_trans (min_le_right _ _) (min_le_right _ _))
    have hd := abs_lt.mp ht1
    rcases le_or_lt (t - e.dTriggerOnTime) e.dAttackTime with h | h
    · -- attack side
      have hgap : e.dStartAmplitude - (t - e.dTriggerOnTime) / e.dAttackTime * e.dStartAmplitude
          = -(t - (e.dTriggerOnTime + e.dAttackTime)) * e.dStartAmplitude / e.dAttackTime := by
        field_simp
        ring
      have hneg : |t - (e.dTriggerOnTime + e.dAttackTime)|
          = -(t - (e.dTriggerOnTime + e.dAttackTime)) := abs_of_nonpos (by linarith)
      have hlt : -(t - (e.dTriggerOnTime + e.dAttackTime)) * e.dStartAmplitude / e.dAttackTime
          < min ε (e.dStartAmplitude - 1 / 10000) := by
        rw [hneg, lt_div_iff₀ hS0] at ht2
        rw [div_lt_iff₀ hA]
        exact ht2
      have hge : 0 ≤ -(t - (e.dTriggerOnTime + e.dAttackTime)) * e.dStartAmplitude
          / e.dAttackTime :=
        div_nonneg (mul_nonneg (by linarith) hS0.le) hA.le
      have hv : 1 / 10000 < (t - e.dTriggerOnTime) / e.dAttackTime * e.dStartAmplitude := by
        have := lt_of_lt_of_le hlt (min_le_right _ _)
        linarith
      refine ⟨_, GetAmplitude_attack e t hOn hA0 h (by linarith), ?_⟩
      rw [clamp_of_gt hv, abs_sub_comm, hgap, abs_of_nonneg hge]
      exact lt_of_lt_of_le hlt (min_le_left _ _)
    · -- decay side
      have h2 : t - e.dTriggerOnTime ≤ e.dAttackTime + e.dDecayTime := by linarith
      have hx0 : 0 ≤ (t - e.dTriggerOnTime - e.dAttackTime) / e.dDecayTime :=
        div_nonneg (by linarith) hD.le
      have hx1 : (t - e.dTriggerOnTime - e.dAttackTime) / e.dDecayTime ≤ 1 :=
        (div_le_one hD).mpr (by linarith)
      refine ⟨_, GetAmplitude_decay e t hOn hD0 h h2, ?_⟩
      rw [clamp_of_gt (decay_ramp_gt hS hL hx0 hx1), add_sub_cancel_right]
      have hstep := decay_ramp_step_lt hD ht3
      rwa [show t - (e.dTriggerOnTime + e.dAttackTime) = t - e.dTriggerOnTime - e.dAttackTime
        by ring] at hstep
  · intro ε hε
    refine ⟨min e.dDecayTime
      (ε * e.dDecayTime / (|e.dSustainAmplitude - e.dStartAmplitude| + 1)),
      lt_min hD (by positivity), fun t ht => ?_⟩
    have ht1 := lt_of_lt_of_le ht (min_le_left _ _)
    have ht3 := lt_of_lt_of_le ht (min_le_right _ _)
    have hd := abs_lt.mp ht1
    rcases lt_or_le (e.dAttackTime + e.dDecayTime) (t - e.dTriggerOnTime) with h | h
    · -- sustain side
      refine ⟨_, GetAmplitude_sustain e t hOn h, ?_⟩
      rw [clamp_of_gt hL, sub_self, abs_zero]
      exact hε
    · -- decay side
      have h1 : e.dAttackTime < t - e.dTriggerOnTime := by linarith
      have hx0 : 0 ≤ (t - e.dTriggerOnTime - e.dAttackTime) / e.dDecayTime :=
        div_nonneg (by linarith) hD.le
      have hx1 : (t - e.dTriggerOnTime - e.dAttackTime) / e.dDecayTime ≤ 1 :=
        (div_le_one hD).mpr (by linarith)
      refine ⟨_, GetAmplitude_decay e t hOn hD0 h1 h, ?_⟩
      rw [clamp_of_gt (decay_ramp_gt hS hL hx0 hx1)]
      have hstep := decay_ramp_step_lt hD ht3
      have heq : (t - e.dTriggerOnTime - e.dAttackTime) / e.dDecayTime
            * (e.dSustainAmplitude - e.dStartAmplitude) + e.dStartAmplitude
            - e.dSustainAmplitude
          = (t - (e.dTriggerOnTime + e.dAttackTime + e.dDecayTime)) / e.dDecayTime
            * (e.dSustainAmplitude - e.dStartAmplitude) := by
        field_simp
        ring
      rw [heq]
      exact hstep

/-- Witness of C10: the worked example after `NoteOn(0)`: the amplitude is `1` at the end of
the attack (`0.1`) and `0.8` at the end of the decay (`0.11`), and it stays within `0.01` of
`1` near `0.1` and within `0.01` of `0.8` near `0.11`. -/
theorem GetAmplitude_continuous_at_boundaries_witness :
    (0 < (testEnvelope.NoteOn 0).dAttackTime ∧ 0 < (testEnvelope.NoteOn 0).dDecayTime ∧
      1 / 10000 < (testEnvelope.NoteOn 0).dStartAmplitude ∧
      1 / 10000 < (testEnvelope.NoteOn 0).dSustainAmplitude ∧
      (testEnvelope.NoteOn 0).bNoteOn = true) ∧
    (testEnvelope.NoteOn 0).GetAmplitude (1 / 10) = .fin 1 ∧
    (testEnvelope.NoteOn 0).GetAmplitude (11 / 100) = .fin (8 / 10) ∧
    (∃ δ : ℚ, 0 < δ ∧ ∀ t : ℚ, |t - 1 / 10| < δ →
      ∃ a : ℚ, (testEnvelope.NoteOn 0).GetAmplitude t = .fin a ∧ |a - 1| < 1 / 100) ∧
    (∃ δ : ℚ, 0 < δ ∧ ∀ t : ℚ, |t - 11 / 100| < δ →
      ∃ a : ℚ, (testEnvelope.NoteOn 0).GetAmplitude t = .fin a ∧ |a - 8 / 10| < 1 / 100) := by
  have hA : 0 < (testEnvelope.NoteOn 0).dAttackTime := by
    norm_num [testEnvelope, sEnvelopeADSR.init4, sEnvelopeADSR.NoteOn]
  have hD : 0 < (testEnvelope.NoteOn 0).dDecayTime := by
    norm_num [testEnvelope, sEnvelopeADSR.init4, sEnvelopeADSR.NoteOn]
  have hS : 1 / 10000 < (testEnvelope.NoteOn 0).dStartAmplitude := by
    norm_num [testEnvelope, sEnvelopeADSR.init4, sEnvelopeADSR.NoteOn]
  have hL : 1 / 10000 < (testEnvelope.NoteOn 0).dSustainAmplitude := by
    norm_num [testEnvelope, sEnvelopeADSR.init4, sEnvelopeADSR.NoteOn]
  have e1 : (testEnvelope.NoteOn 0).dTriggerOnTime + (testEnvelope.NoteOn 0).dAttackTime
      = 1 / 10 := by
    norm_num [testEnvelope, sEnvelopeADSR.init4, sEnvelopeADSR.NoteOn]
  have e2 : (testEnvelope.NoteOn 0).dTriggerOnTime + (testEnvelope.NoteOn 0).dAttackTime
      + (testEnvelope.NoteOn 0).dDecayTime = 11 / 100 := by
    norm_num [testEnvelope, sEnvelopeADSR.init4, sEnvelopeADSR.NoteOn]
  have e3 : (testEnvelope.NoteOn 0).dStartAmplitude = 1 := rfl
  have e4 : (testEnvelope.NoteOn 0).dSustainAmplitude = 8 / 10 := rfl
  obtain ⟨_, h1, h2, h3, h4⟩ :=
    GetAmplitude_continuous_at_boundaries (testEnvelope.NoteOn 0) hA hD hS hL rfl
  rw [e1, e3] at h1
  rw [e2, e4] at h2
  rw [e1, e3] at h3
  rw [e2, e4] at h4
  exact ⟨⟨hA, hD, hS, hL, rfl⟩, h1, h2, h3 (1 / 100) (by norm_num), h4 (1 / 100) (by norm_num)⟩

/-! ## The analogue saw -/

/-- The loop of the `SAW_ANALOG` case, entered at `n = k + 1` with a finite `dOutput` and
with enough fuel, adds the harmonics `k + 1, ..., 99` and stops. -/
theorem sawAnalogLoop_eq (m : MathEnv K) (dHertz dTime : K) :
    ∀ (fuel k : ℕ) (acc : K), k ≤ 99 → 99 - k < fuel →
      sawAnalogLoop m dHertz dTime fuel ((k : K) + 1) (.fin acc)
        = .fin (acc + ∑ i ∈ Finset.Ico (k + 1) 100,
            m.sin ((i : K) * w m dHertz * dTime) / (i : K)) := by
  intro fuel
  induction fuel with
  | zero => intro k acc _ h; omega
  | succ fuel ih =>
    intro k acc hk hfuel
    rcases Nat.lt_or_ge k 99 with h | h
    · have hlt : (k : K) + 1 < 100 := by
        have : ((k + 1 : ℕ) : K) < ((100 : ℕ) : K) := Nat.cast_lt.mpr (by omega)
        push_cast at this
        exact this
      have hne : (k : K) + 1 ≠ 0 := by positivity
      have hnext : (k : K) + 1 + 1 = ((k + 1 : ℕ) : K) + 1 := by push_cast; ring
      rw [sawAnalogLoop, if_pos hlt, Dbl.div_fin _ hne, Dbl.add_fin, hnext,
        ih (k + 1) _ (by omega) (by omega),
        Finset.sum_eq_sum_Ico_succ_bot (show k + 1 < 100 by omega)]
      push_cast
      rw [add_assoc]
    · have hk99 : k = 99 := le_antisymm hk h
      subst hk99
      have hnot : ¬ (((99 : ℕ) : K) + 1 < 100) := by norm_num
      rw [sawAnalogLoop, if_neg hnot]
      simp

/-- The `SAW_ANALOG` case of `oscilator`, when `PI` is not zero: the loop terminates within its
fuel and the result is the finite value `sum * (2 / PI)`. -/
theorem oscilator_SAW_ANALOG [FloorRing K] (m : MathEnv K) (dHertz dTime : K)
    (hPI : m.PI ≠ 0) :
    oscilator m dHertz dTime .SAW_ANALOG
      = .fin ((∑ i ∈ Finset.Ico (1 : ℕ) 100, m.sin ((i : K) * w m dHertz * dTime) / (i : K))
          * (2 / m.PI)) := by
  have h := sawAnalogLoop_eq m dHertz dTime 100 0 0 (by omega) (by omega)
  simp only [Nat.cast_zero, zero_add] at h
  simp only [oscilator, h, Dbl.div_fin _ hPI, Dbl.mul_fin]

/-! ## Sequences of calls on the envelope -/

theorem runCalls_concat {T : Type} (e : sEnvelopeADSR T) (calls : List (EnvCall T))
    (c : EnvCall T) : runCalls e (calls ++ [c]) = EnvCall.apply (runCalls e calls) c := by
  simp [runCalls, List.foldl_append]

theorem lastOnTime_concat {T : Type} (calls : List (EnvCall T)) (c : EnvCall T) :
    lastOnTime (calls ++ [c])
      = match c with
        | .NoteOn t => some t
        | .NoteOff _ => lastOnTime calls := by
  induction calls with
  | nil => cases c <;> simp [lastOnTime]
  | cons a rest ih =>
    cases a <;> cases c <;> simp_all [lastOnTime]

theorem lastOffTime_concat {T : Type} (calls : List (EnvCall T)) (c : EnvCall T) :
    lastOffTime (calls ++ [c])
      = match c with
        | .NoteOff t => some t
        | .NoteOn _ => lastOffTime calls := by
  induction calls with
  | nil => cases c <;> simp [lastOffTime]
  | cons a rest ih =>
    cases a <;> cases c <;> simp_all [lastOffTime]

/-- No sequence of calls changes the ADSR parameters. -/
theorem runCalls_params {T : Type} (calls : List (EnvCall T)) :
    ∀ e : sEnvelopeADSR T,
      (runCalls e calls).dAttackTime = e.dAttackTime ∧
      (runCalls e calls).dDecayTime = e.dDecayTime ∧
      (runCalls e calls).dSustainAmplitude = e.dSustainAmplitude ∧
      (runCalls e calls).dReleaseTime = e.dReleaseTime ∧
      (runCalls e calls).dStartAmplitude = e.dStartAmplitude := by
  induction calls with
  | nil => intro e; exact ⟨rfl, rfl, rfl, rfl, rfl⟩
  | cons c rest ih =>
    intro e
    have h := ih (EnvCall.apply e c)
    cases c <;> exact h

theorem clamp_of_le {v : K} (hv : v ≤ 1 / 10000) : clamp v = 0 := by
  unfold clamp
  rw [if_pos hv]

/-- The amplitude of the initial envelope: the clamped ramp `1 - 10 * t`. -/
theorem GetAmplitude_init (t : K) :
    (Globals.init : Globals K).envelope.GetAmplitude t = .fin (clamp (1 - 10 * t)) := by
  have hR : (Globals.init : Globals K).envelope.dReleaseTime ≠ 0 := by
    norm_num [Globals.init, envelope, sEnvelopeADSR.init4]
  rw [GetAmplitude_release _ t rfl hR]
  congr 2
  simp only [Globals.init, envelope, sEnvelopeADSR.init4]
  ring

/-! ## The key loop -/

/-- Keys that are not down leave the state of the key loop unchanged. -/
theorem foldl_keyBody_none (m : MathEnv K) (keyDown : ℕ → Bool) (GetTime : ℕ → K) :
    ∀ (keys : List ℕ) (s : MainState K), (∀ j ∈ keys, keyDown j = false) →
      keys.foldl (keyBody m keyDown GetTime) s = s := by
  intro keys
  induction keys with
  | nil => intro s _; rfl
  | cons a rest ih =>
    intro s h
    have ha : keyDown a = false := h a (List.mem_cons_self a rest)
    rw [List.foldl_cons]
    have hbody : keyBody m keyDown GetTime s a = s := by
      simp only [keyBody, ha, Bool.false_eq_true, if_false]
    rw [hbody]
    exact ih s (fun j hj => h j (List.mem_cons_of_mem a hj))

/-- When `k` is the only key of the list that is down, the key loop runs its body once, for
`k`. -/
theorem foldl_keyBody_one (m : MathEnv K) (keyDown : ℕ → Bool) (GetTime : ℕ → K) (k : ℕ) :
    ∀ (keys : List ℕ) (s : MainState K), keys.Nodup → k ∈ keys →
      (∀ j ∈ keys, (keyDown j = true ↔ j = k)) →
      keys.foldl (keyBody m keyDown GetTime) s = keyBody m keyDown GetTime s k := by
  intro keys
  induction keys with
  | nil => intro s _ hk _; exact absurd hk (List.not_mem_nil k)
  | cons a rest ih =>
    intro s hnd hk h
    rw [List.foldl_cons]
    have hnd2 := List.nodup_cons.mp hnd
    by_cases hak : a = k
    · subst hak
      apply foldl_keyBody_none
      intro j hj
      have hne : j ≠ a := fun hja => hnd2.1 (hja ▸ hj)
      have := (h j (List.mem_cons_of_mem a hj)).not.mpr hne
      simpa using this
    · have ha : keyDown a = false := by
        have := (h a (List.mem_cons_self a rest)).not.mpr hak
        simpa using this
      have hbody : keyBody m keyDown GetTime s a = s := by
        simp only [keyBody, ha, Bool.false_eq_true, if_false]
      rw [hbody]
      have hk2 : k ∈ rest := by
        rcases List.mem_cons.mp hk with h1 | h1
        · exact absurd h1.symm hak
        · exact h1
      exact ih s hnd2.2 hk2 (fun j hj => h j (List.mem_cons_of_mem a hj))

/-! ## Bounds on the partial sum of the saw series -/

/-- The cubic Taylor polynomial bounds the sine from below on `[0, ∞)`. -/
theorem sub_cube_le_sin {y : ℝ} (hy : 0 ≤ y) : y - y ^ 3 / 6 ≤ Real.sin y := by
  have hd : ∀ x : ℝ, HasDerivAt (fun x : ℝ => Real.sin x - (x - x ^ 3 / 6))
      (Real.cos x - (1 - 3 * x ^ 2 / 6)) x := by
    intro x
    have h2 : HasDerivAt (fun x : ℝ => x - x ^ 3 / 6) (1 - 3 * x ^ 2 / 6) x := by
      have h4 := (hasDerivAt_id x).sub ((hasDerivAt_pow 3 x).div_const 6)
      convert h4 using 1
    exact (Real.hasDerivAt_sin x).sub h2
  have hmono : Monotone (fun x : ℝ => Real.sin x - (x - x ^ 3 / 6)) := by
    apply monotone_of_deriv_nonneg (fun x => (hd x).differentiableAt)
    intro x
    rw [(hd x).deriv]
    have := Real.one_sub_sq_div_two_le_cos (x := x)
    linarith
  have h0 := hmono hy
  simp only [Real.sin_zero] at h0
  norm_num at h0
  linarith

theorem sawLow_linear_ge :
    (188 / 1000 : ℝ)
      ≤ ∑ i ∈ Finset.Ico (51 : ℕ) 100, (100 - (i : ℝ)) / (100 * (i : ℝ)) := by
  rw [Finset.sum_Ico_eq_sum_range]
  norm_num [Finset.sum_range_succ]

theorem sawLow_cubic_high_le :
    (∑ i ∈ Finset.Ico (51 : ℕ) 100, (100 - (i : ℝ)) ^ 3 / (6000000 * (i : ℝ)))
      ≤ 43 / 10000 := by
  rw [Finset.sum_Ico_eq_sum_range]
  norm_num [Finset.sum_range_succ]

theorem sawLow_cubic_low_le :
    (∑ i ∈ Finset.Ico (1 : ℕ) 51, (i : ℝ) ^ 2 / 6000000) ≤ 72 / 10000 := by
  rw [Finset.sum_Ico_eq_sum_range]
  norm_num [Finset.sum_range_succ]

/-- Harmonics 1 to 50 at the angle `π / 100`, bounded below through the cubic Taylor
polynomial. -/
theorem saw_term_low (i : ℕ) (hi : i ∈ Finset.Ico (1 : ℕ) 51) :
    Real.pi * (1 / 100) - Real.pi ^ 3 * ((i : ℝ) ^ 2 / 6000000)
      ≤ Real.sin ((i : ℝ) * (2 * Real.pi * (1 / 2)) * (1 / 100)) / (i : ℝ) := by
  have hi1 : (1 : ℝ) ≤ (i : ℝ) := by exact_mod_cast (Finset.mem_Ico.mp hi).1
  have hipos : (0 : ℝ) < (i : ℝ) := by linarith
  have hy : 0 ≤ (i : ℝ) * (2 * Real.pi * (1 / 2)) * (1 / 100) := by
    have := Real.pi_pos
    positivity
  have h := sub_cube_le_sin hy
  rw [le_div_iff₀ hipos]
  refine le_trans (le_of_eq ?_) h
  ring

/-- Harmonics 51 to 99 at the angle `π / 100`, reflected with `sin (π - y) = sin y` and bounded
below through the cubic Taylor polynomial. -/
theorem saw_term_high (i : ℕ) (hi : i ∈ Finset.Ico (51 : ℕ) 100) :
    Real.pi * ((100 - (i : ℝ)) / (100 * (i : ℝ)))
        - Real.pi ^ 3 * ((100 - (i : ℝ)) ^ 3 / (6000000 * (i : ℝ)))
      ≤ Real.sin ((i : ℝ) * (2 * Real.pi * (1 / 2)) * (1 / 100)) / (i : ℝ) := by
  have hi1 : (51 : ℝ) ≤ (i : ℝ) := by exact_mod_cast (Finset.mem_Ico.mp hi).1
  have hi2 : (i : ℝ) ≤ 100 := by
    have : i ≤ 100 := le_of_lt (Finset.mem_Ico.mp hi).2
    exact_mod_cast this
  have hipos : (0 : ℝ) < (i : ℝ) := by linarith
  have hy : 0 ≤ (100 - (i : ℝ)) * Real.pi / 100 := by
    have := Real.pi_pos
    have : 0 ≤ 100 - (i : ℝ) := by linarith
    positivity
  have h := sub_cube_le_sin hy
  have hsin : Real.sin ((i : ℝ) * (2 * Real.pi * (1 / 2)) * (1 / 100))
      = Real.sin ((100 - (i : ℝ)) * Real.pi / 100) := by
    rw [← Real.sin_pi_sub]
    congr 1
    ring
  rw [hsin, le_div_iff₀ hipos]
  refine le_trans (le_of_eq ?_) h
  field_simp
  ring

/-- The Gibbs overshoot: at frequency `1/2` and time `1/100`, that is at the angle `π / 100`
per harmonic, the scaled partial sum of the saw series exceeds `1.1`. -/
theorem saw_sum_gt :
    (11 / 10 : ℝ) < (∑ i ∈ Finset.Ico (1 : ℕ) 100,
      Real.sin ((i : ℝ) * (2 * Real.pi * (1 / 2)) * (1 / 100)) / (i : ℝ)) * (2 / Real.pi) := by
  have hpi := Real.pi_pos
  have hpi3 : Real.pi < 315 / 100 := by
    have := Real.pi_lt_d2
    linarith
  have hsplit := Finset.sum_Ico_consecutive
    (fun i : ℕ => Real.sin ((i : ℝ) * (2 * Real.pi * (1 / 2)) * (1 / 100)) / (i : ℝ))
    (show 1 ≤ 51 by norm_num) (show 51 ≤ 100 by norm_num)
  have h1 := Finset.sum_le_sum saw_term_low
  have h2 := Finset.sum_le_sum saw_term_high
  rw [Finset.sum_sub_distrib, ← Finset.mul_sum, ← Finset.mul_sum] at h1 h2
  have hA1 : (∑ i ∈ Finset.Ico (1 : ℕ) 51, (1 / 100 : ℝ)) = 1 / 2 := by
    simp
    norm_num
  rw [hA1] at h1
  have hsq : Real.pi ^ 2 < 10 := by nlinarith
  have hcube : Real.pi ^ 3 < 10 * Real.pi := by nlinarith
  have hcube0 : 0 ≤ Real.pi ^ 3 := by positivity
  have e1 : Real.pi * (188 / 1000)
      ≤ Real.pi * ∑ i ∈ Finset.Ico (51 : ℕ) 100, (100 - (i : ℝ)) / (100 * (i : ℝ)) :=
    mul_le_mul_of_nonneg_left sawLow_linear_ge hpi.le
  have e2 : Real.pi ^ 3 * ∑ i ∈ Finset.Ico (51 : ℕ) 100,
      (100 - (i : ℝ)) ^ 3 / (6000000 * (i : ℝ)) ≤ Real.pi ^ 3 * (43 / 10000) :=
    mul_le_mul_of_nonneg_left sawLow_cubic_high_le hcube0
  have e3 : Real.pi ^ 3 * ∑ i ∈ Finset.Ico (1 : ℕ) 51, (i : ℝ) ^ 2 / 6000000
      ≤ Real.pi ^ 3 * (72 / 10000) :=
    mul_le_mul_of_nonneg_left sawLow_cubic_low_le hcube0
  rw [← hsplit, mul_div_assoc', lt_div_iff₀ hpi]
  linarith

/-! ## The range of the partial sum of the saw series -/

/-- Every entry of the tables over the grid `m * π / 100` passes the polynomial check. -/
theorem encOK_100 : ∀ m < 51, encOK 100 sinHi100 sinLo100 m = true := by decide!

/-- Every entry of the tables over the grid `m * π / 99` passes the polynomial check. -/
theorem encOK_99 : ∀ m < 50, encOK 99 sinHi99 sinLo99 m = true := by decide!

/-- The common denominator is a multiple of every harmonic number `1, …, 99`. -/
theorem lcm99_dvd : ∀ k < 99, (k + 1) ∣ 69720375229712477164533808935312303556800 := by decide!

/-- A function that vanishes at `0` and has a non-negative derivative on `[0, ∞)` is
non-negative there. -/
theorem nonneg_of_hasDerivAt_nonneg {g d : ℝ → ℝ} (hd : ∀ x : ℝ, HasDerivAt g (d x) x)
    (h0 : g 0 = 0) (hpos : ∀ x : ℝ, 0 ≤ x → 0 ≤ d x) {y : ℝ} (hy : 0 ≤ y) : 0 ≤ g y := by
  have hmono : MonotoneOn g (Set.Ici 0) := by
    apply monotoneOn_of_deriv_nonneg (convex_Ici 0)
    · exact fun x _ => (hd x).continuousAt.continuousWithinAt
    · exact fun x _ => (hd x).differentiableAt.differentiableWithinAt
    · intro x hx
      rw [(hd x).deriv]
      rw [interior_Ici] at hx
      exact hpos x (le_of_lt hx)
  have := hmono (Set.left_mem_Ici) (Set.mem_Ici.mpr hy) hy
  rwa [h0] at this

theorem cos_le_taylor4 {y : ℝ} (hy : 0 ≤ y) : Real.cos y ≤ 1 - y ^ 2 / 2 + y ^ 4 / 24 := by
  have h := nonneg_of_hasDerivAt_nonneg
    (g := fun x => (1 - x ^ 2 / 2 + x ^ 4 / 24) - Real.cos x)
    (d := fun x => (0 - 2 * x ^ 1 / 2 + 4 * x ^ 3 / 24) - (- Real.sin x))
    (fun x => (((hasDerivAt_const x (1 : ℝ)).sub ((hasDerivAt_pow 2 x).div_const 2)).add
      ((hasDerivAt_pow 4 x).div_const 24)).sub (Real.hasDerivAt_cos x))
    (by simp)
    (fun x hx => by
      have := sub_cube_le_sin hx
      show 0 ≤ (0 - 2 * x ^ 1 / 2 + 4 * x ^ 3 / 24) - (- Real.sin x)
      linarith) hy
  simp only at h
  linarith

theorem sin_le_taylor5 {y : ℝ} (hy : 0 ≤ y) : Real.sin y ≤ y - y ^ 3 / 6 + y ^ 5 / 120 := by
  have h := nonneg_of_hasDerivAt_nonneg
    (g := fun x => (x - x ^ 3 / 6 + x ^ 5 / 120) - Real.sin x)
    (d := fun x => (1 - 3 * x ^ 2 / 6 + 5 * x ^ 4 / 120) - Real.cos x)
    (fun x => (((hasDerivAt_id x).sub ((hasDerivAt_pow 3 x).div_const 6)).add
      ((hasDerivAt_pow 5 x).div_const 120)).sub (Real.hasDerivAt_sin x))
    (by simp)
    (fun x hx => by
      have := cos_le_taylor4 hx
      show 0 ≤ (1 - 3 * x ^ 2 / 6 + 5 * x ^ 4 / 120) - Real.cos x
      linarith) hy
  simp only at h
  linarith

theorem taylor6_le_cos {y : ℝ} (hy : 0 ≤ y) :
    1 - y ^ 2 / 2 + y ^ 4 / 24 - y ^ 6 / 720 ≤ Real.cos y := by
  have h := nonneg_of_hasDerivAt_nonneg
    (g := fun x => Real.cos x - (1 - x ^ 2 / 2 + x ^ 4 / 24 - x ^ 6 / 720))
    (d := fun x => - Real.sin x - (0 - 2 * x ^ 1 / 2 + 4 * x ^ 3 / 24 - 6 * x ^ 5 / 720))
    (fun x => (Real.hasDerivAt_cos x).sub
      ((((hasDerivAt_const x (1 : ℝ)).sub ((hasDerivAt_pow 2 x).div_const 2)).add
      ((hasDerivAt_pow 4 x).div_const 24)).sub ((hasDerivAt_pow 6 x).div_const 720)))
    (by simp)
    (fun x hx => by
      have := sin_le_taylor5 hx
      show 0 ≤ - Real.sin x - (0 - 2 * x ^ 1 / 2 + 4 * x ^ 3 / 24 - 6 * x ^ 5 / 720)
      linarith) hy
  simp only at h
  linarith

theorem taylor7_le_sin {y : ℝ} (hy : 0 ≤ y) :
    y - y ^ 3 / 6 + y ^ 5 / 120 - y ^ 7 / 5040 ≤ Real.sin y := by
  have h := nonneg_of_hasDerivAt_nonneg
    (g := fun x => Real.sin x - (x - x ^ 3 / 6 + x ^ 5 / 120 - x ^ 7 / 5040))
    (d := fun x => Real.cos x - (1 - 3 * x ^ 2 / 6 + 5 * x ^ 4 / 120 - 7 * x ^ 6 / 5040))
    (fun x => (Real.hasDerivAt_sin x).sub
      ((((hasDerivAt_id x).sub ((hasDerivAt_pow 3 x).div_const 6)).add
      ((hasDerivAt_pow 5 x).div_const 120)).sub ((hasDerivAt_pow 7 x).div_const 5040)))
    (by simp)
    (fun x hx => by
      have := taylor6_le_cos hx
      show 0 ≤ Real.cos x - (1 - 3 * x ^ 2 / 6 + 5 * x ^ 4 / 120 - 7 * x ^ 6 / 5040)
      linarith) hy
  simp only at h
  linarith

theorem cos_le_taylor8 {y : ℝ} (hy : 0 ≤ y) :
    Real.cos y ≤ 1 - y ^ 2 / 2 + y ^ 4 / 24 - y ^ 6 / 720 + y ^ 8 / 40320 := by
  have h := nonneg_of_hasDerivAt_nonneg
    (g := fun x => (1 - x ^ 2 / 2 + x ^ 4 / 24 - x ^ 6 / 720 + x ^ 8 / 40320) - Real.cos x)
    (d := fun x => (0 - 2 * x ^ 1 / 2 + 4 * x ^ 3 / 24 - 6 * x ^ 5 / 720 + 8 * x ^ 7 / 40320)
      - (- Real.sin x))
    (fun x => (((((hasDerivAt_const x (1 : ℝ)).sub ((hasDerivAt_pow 2 x).div_const 2)).add
      ((hasDerivAt_pow 4 x).div_const 24)).sub ((hasDerivAt_pow 6 x).div_const 720)).add
      ((hasDerivAt_pow 8 x).div_const 40320)).sub (Real.hasDerivAt_cos x))
    (by simp)
    (fun x hx => by
      have := taylor7_le_sin hx
      show 0 ≤ (0 - 2 * x ^ 1 / 2 + 4 * x ^ 3 / 24 - 6 * x ^ 5 / 720 + 8 * x ^ 7 / 40320)
        - (- Real.sin x)
      linarith) hy
  simp only at h
  linarith

theorem sin_le_taylor9 {y : ℝ} (hy : 0 ≤ y) :
    Real.sin y ≤ y - y ^ 3 / 6 + y ^ 5 / 120 - y ^ 7 / 5040 + y ^ 9 / 362880 := by
  have h := nonneg_of_hasDerivAt_nonneg
    (g := fun x => (x - x ^ 3 / 6 + x ^ 5 / 120 - x ^ 7 / 5040 + x ^ 9 / 362880) - Real.sin x)
    (d := fun x => (1 - 3 * x ^ 2 / 6 + 5 * x ^ 4 / 120 - 7 * x ^ 6 / 5040
      + 9 * x ^ 8 / 362880) - Real.cos x)
    (fun x => (((((hasDerivAt_id x).sub ((hasDerivAt_pow 3 x).div_const 6)).add
      ((hasDerivAt_pow 5 x).div_const 120)).sub ((hasDerivAt_pow 7 x).div_const 5040)).add
      ((hasDerivAt_pow 9 x).div_const 362880)).sub (Real.hasDerivAt_sin x))
    (by simp)
    (fun x hx => by
      have := cos_le_taylor8 hx
      show 0 ≤ (1 - 3 * x ^ 2 / 6 + 5 * x ^ 4 / 120 - 7 * x ^ 6 / 5040
        + 9 * x ^ 8 / 362880) - Real.cos x
      linarith) hy
  simp only at h
  linarith

theorem enc_sound (D : ℕ) (hD : 0 < D) (hi lo : ℕ → ℕ) (m : ℕ)
    (h : encOK D hi lo m = true) :
    (lo m : ℝ) / 100000000 ≤ Real.sin ((m : ℝ) * Real.pi / (D : ℝ)) ∧
    Real.sin ((m : ℝ) * Real.pi / (D : ℝ)) ≤ (hi m : ℝ) / 100000000 := by
  simp only [encOK, Bool.and_eq_true, decide_eq_true_eq] at h
  obtain ⟨h1, h2⟩ := h
  have h1r : (100000000 : ℝ) * ((31416 * (m : ℝ)) * (10000 * (D : ℝ)) ^ 8 * 362880
        + (31416 * (m : ℝ)) ^ 5 * (10000 * (D : ℝ)) ^ 4 * 3024 + (31416 * (m : ℝ)) ^ 9)
      ≤ (hi m : ℝ) * ((10000 * (D : ℝ)) ^ 9 * 362880)
        + 100000000 * ((31415 * (m : ℝ)) ^ 3 * (10000 * (D : ℝ)) ^ 6 * 60480
          + (31415 * (m : ℝ)) ^ 7 * (10000 * (D : ℝ)) ^ 2 * 72) := by exact_mod_cast h1
  have h2r : (lo m : ℝ) * ((10000 * (D : ℝ)) ^ 7 * 5040)
        + 100000000 * ((31416 * (m : ℝ)) ^ 3 * (10000 * (D : ℝ)) ^ 4 * 840
          + (31416 * (m : ℝ)) ^ 7)
      ≤ 100000000 * ((31415 * (m : ℝ)) * (10000 * (D : ℝ)) ^ 6 * 5040
          + (31415 * (m : ℝ)) ^ 5 * (10000 * (D : ℝ)) ^ 2 * 42) := by exact_mod_cast h2
  have hDr : (0 : ℝ) < (D : ℝ) := by exact_mod_cast hD
  have hX : (0 : ℝ) < 10000 * (D : ℝ) := by positivity
  have hm0 : (0 : ℝ) ≤ (m : ℝ) := Nat.cast_nonneg m
  have hpl : (31415 / 10000 : ℝ) < Real.pi := by
    have := Real.pi_gt_d4
    norm_num at this ⊢
    linarith
  have hph : Real.pi < (31416 / 10000 : ℝ) := by
    have := Real.pi_lt_d4
    norm_num at this ⊢
    linarith
  have hylo : 31415 * (m : ℝ) / (10000 * (D : ℝ)) ≤ (m : ℝ) * Real.pi / (D : ℝ) := by
    rw [div_le_div_iff₀ hX hDr]
    nlinarith [mul_nonneg hm0 hDr.le]
  have hyhi : (m : ℝ) * Real.pi / (D : ℝ) ≤ 31416 * (m : ℝ) / (10000 * (D : ℝ)) := by
    rw [div_le_div_iff₀ hDr hX]
    nlinarith [mul_nonneg hm0 hDr.le]
  have hlo0 : (0 : ℝ) ≤ 31415 * (m : ℝ) / (10000 * (D : ℝ)) := by positivity
  have hy0 : (0 : ℝ) ≤ (m : ℝ) * Real.pi / (D : ℝ) := le_trans hlo0 hylo
  have p3l := pow_le_pow_left₀ hlo0 hylo 3
  have p5l := pow_le_pow_left₀ hlo0 hylo 5
  have p7l := pow_le_pow_left₀ hlo0 hylo 7
  have p3h := pow_le_pow_left₀ hy0 hyhi 3
  have p5h := pow_le_pow_left₀ hy0 hyhi 5
  have p7h := pow_le_pow_left₀ hy0 hyhi 7
  have p9h := pow_le_pow_left₀ hy0 hyhi 9
  have hU := sin_le_taylor9 hy0
  have hL := taylor7_le_sin hy0
  constructor
  · have key : (lo m : ℝ) / 100000000
        ≤ 31415 * (m : ℝ) / (10000 * (D : ℝ))
          - (31416 * (m : ℝ) / (10000 * (D : ℝ))) ^ 3 / 6
          + (31415 * (m : ℝ) / (10000 * (D : ℝ))) ^ 5 / 120
          - (31416 * (m : ℝ) / (10000 * (D : ℝ))) ^ 7 / 5040 := by
      rw [div_le_iff₀ (by norm_num : (0 : ℝ) < 100000000)]
      have e : (31415 * (m : ℝ) / (10000 * (D : ℝ))
          - (31416 * (m : ℝ) / (10000 * (D : ℝ))) ^ 3 / 6
          + (31415 * (m : ℝ) / (10000 * (D : ℝ))) ^ 5 / 120
          - (31416 * (m : ℝ) / (10000 * (D : ℝ))) ^ 7 / 5040) * 100000000
          = (100000000 * ((31415 * (m : ℝ)) * (10000 * (D : ℝ)) ^ 6 * 5040
              + (31415 * (m : ℝ)) ^ 5 * (10000 * (D : ℝ)) ^ 2 * 42)
            - 100000000 * ((31416 * (m : ℝ)) ^ 3 * (10000 * (D : ℝ)) ^ 4 * 840
              + (31416 * (m : ℝ)) ^ 7)) / ((10000 * (D : ℝ)) ^ 7 * 5040) := by
        field_simp
        ring
      rw [e, le_div_iff₀ (by positivity)]
      linarith
    linarith
  · have key : 31416 * (m : ℝ) / (10000 * (D : ℝ))
          - (31415 * (m : ℝ) / (10000 * (D : ℝ))) ^ 3 / 6
          + (31416 * (m : ℝ) / (10000 * (D : ℝ))) ^ 5 / 120
          - (31415 * (m : ℝ) / (10000 * (D : ℝ))) ^ 7 / 5040
          + (31416 * (m : ℝ) / (10000 * (D : ℝ))) ^ 9 / 362880
        ≤ (hi m : ℝ) / 100000000 := by
      rw [le_div_iff₀ (by norm_num : (0 : ℝ) < 100000000)]
      have e : (31416 * (m : ℝ) / (10000 * (D : ℝ))
          - (31415 * (m : ℝ) / (10000 * (D : ℝ))) ^ 3 / 6
          + (31416 * (m : ℝ) / (10000 * (D : ℝ))) ^ 5 / 120
          - (31415 * (m : ℝ) / (10000 * (D : ℝ))) ^ 7 / 5040
          + (31416 * (m : ℝ) / (10000 * (D : ℝ))) ^ 9 / 362880) * 100000000
          = (100000000 * ((31416 * (m : ℝ)) * (10000 * (D : ℝ)) ^ 8 * 362880
              + (31416 * (m : ℝ)) ^ 5 * (10000 * (D : ℝ)) ^ 4 * 3024 + (31416 * (m : ℝ)) ^ 9)
            - 100000000 * ((31415 * (m : ℝ)) ^ 3 * (10000 * (D : ℝ)) ^ 6 * 60480
              + (31415 * (m : ℝ)) ^ 7 * (10000 * (D : ℝ)) ^ 2 * 72))
              / ((10000 * (D : ℝ)) ^ 9 * 362880) := by
        field_simp
        ring
      rw [e, div_le_iff₀ (by positivity)]
      linarith
    linarith

/-- The sine at the angle `r * π / D` with `r ≤ D`, through the table entry of the folded
index. -/
theorem sin_fold (D : ℕ) (hD : 0 < D) (hi lo : ℕ → ℕ)
    (hT : ∀ m : ℕ, 2 * m ≤ D → encOK D hi lo m = true) (r : ℕ) (hr : r ≤ D) :
    (lo (if 2 * r ≤ D then r else D - r) : ℝ) / 100000000
        ≤ Real.sin ((r : ℝ) * Real.pi / (D : ℝ)) ∧
      Real.sin ((r : ℝ) * Real.pi / (D : ℝ))
        ≤ (hi (if 2 * r ≤ D then r else D - r) : ℝ) / 100000000 := by
  have hDr : (D : ℝ) ≠ 0 := by exact_mod_cast hD.ne'
  by_cases h2 : 2 * r ≤ D
  · rw [if_pos h2]
    exact enc_sound D hD hi lo r (hT r h2)
  · rw [if_neg h2]
    have h3 : 2 * (D - r) ≤ D := by omega
    have hs : Real.sin ((r : ℝ) * Real.pi / (D : ℝ))
        = Real.sin (((D - r : ℕ) : ℝ) * Real.pi / (D : ℝ)) := by
      rw [← Real.sin_pi_sub]
      congr 1
      rw [Nat.cast_sub hr]
      field_simp
      ring
    rw [hs]
    exact enc_sound D hD hi lo (D - r) (hT (D - r) h3)

/-- The upper bound of the sine at `n * π / D` that `sawAcc` adds or subtracts. -/
theorem sin_mul_pi_div_le (D : ℕ) (hD : 0 < D) (hi lo : ℕ → ℕ)
    (hT : ∀ m : ℕ, 2 * m ≤ D → encOK D hi lo m = true) (n : ℕ) :
    (n % (2 * D) ≤ D →
      Real.sin ((n : ℝ) * Real.pi / (D : ℝ))
        ≤ (hi (if 2 * (n % (2 * D)) ≤ D then n % (2 * D) else D - n % (2 * D)) : ℝ)
            / 100000000) ∧
    (¬ n % (2 * D) ≤ D →
      Real.sin ((n : ℝ) * Real.pi / (D : ℝ))
        ≤ -((lo (if 2 * (n % (2 * D) - D) ≤ D then n % (2 * D) - D
              else D - (n % (2 * D) - D)) : ℝ) / 100000000)) := by
  have hDr : (D : ℝ) ≠ 0 := by exact_mod_cast hD.ne'
  have hred : Real.sin ((n : ℝ) * Real.pi / (D : ℝ))
      = Real.sin (((n % (2 * D) : ℕ) : ℝ) * Real.pi / (D : ℝ)) := by
    have hn : (n : ℝ) = ((n % (2 * D) : ℕ) : ℝ) + ((n / (2 * D) : ℕ) : ℝ) * (2 * (D : ℝ)) := by
      have := Nat.mod_add_div n (2 * D)
      have h2 : ((n % (2 * D) + 2 * D * (n / (2 * D)) : ℕ) : ℝ) = (n : ℝ) := by rw [this]
      push_cast at h2
      linarith
    have : (n : ℝ) * Real.pi / (D : ℝ)
        = ((n % (2 * D) : ℕ) : ℝ) * Real.pi / (D : ℝ)
          + ((n / (2 * D) : ℕ) : ℝ) * (2 * Real.pi) := by
      rw [hn]
      field_simp
      ring
    rw [this, Real.sin_add_nat_mul_two_pi]
  have hlt : n % (2 * D) < 2 * D := Nat.mod_lt n (by omega)
  constructor
  · intro hr
    rw [hred]
    exact (sin_fold D hD hi lo hT _ hr).2
  · intro hr
    have hr2 : n % (2 * D) - D ≤ D := by omega
    have hs : Real.sin (((n % (2 * D) : ℕ) : ℝ) * Real.pi / (D : ℝ))
        = -Real.sin (((n % (2 * D) - D : ℕ) : ℝ) * Real.pi / (D : ℝ)) := by
      rw [← Real.sin_add_pi]
      congr 1
      rw [Nat.cast_sub (by omega)]
      field_simp
      ring
    rw [hred, hs]
    exact neg_le_neg (sin_fold D hD hi lo hT _ hr2).1

theorem lcm99_cast_div (k : ℕ) (hk : k < 99) :
    ((69720375229712477164533808935312303556800 / (k + 1) : ℕ) : ℝ)
      = 69720375229712477164533808935312303556800 / ((k : ℝ) + 1) := by
  have h := lcm99_dvd k hk
  rw [Nat.cast_div h (by positivity)]
  push_cast
  rfl

/-- The accumulator bounds the scaled partial sum from above. -/
theorem sawAcc_sound (D : ℕ) (hD : 0 < D) (hi lo : ℕ → ℕ)
    (hT : ∀ m : ℕ, 2 * m ≤ D → encOK D hi lo m = true) (c : ℕ) :
    ∀ k : ℕ, k ≤ 99 →
      (∑ i ∈ Finset.Ico (1 : ℕ) (k + 1),
          Real.sin ((i : ℝ) * ((c : ℝ) * Real.pi / (D : ℝ))) / (i : ℝ))
          * (100000000 * 69720375229712477164533808935312303556800)
        + 600000000 * 69720375229712477164533808935312303556800
        ≤ (sawAcc D hi lo c k : ℝ) := by
  intro k
  induction k with
  | zero =>
    intro _
    norm_num [sawAcc]
  | succ k ih =>
    intro hk
    have ihk := ih (by omega)
    have hq := lcm99_cast_div k (by omega)
    have hk1 : (0 : ℝ) < (k : ℝ) + 1 := by positivity
    have hangle : ((k + 1 : ℕ) : ℝ) * ((c : ℝ) * Real.pi / (D : ℝ))
        = (((k + 1) * c : ℕ) : ℝ) * Real.pi / (D : ℝ) := by
      push_cast
      ring
    have hb := sin_mul_pi_div_le D hD hi lo hT ((k + 1) * c)
    rw [Finset.sum_Ico_succ_top (by omega), add_mul, hangle]
    have hterm : ∀ b : ℝ, Real.sin ((((k + 1) * c : ℕ) : ℝ) * Real.pi / (D : ℝ)) ≤ b / 100000000 →
        Real.sin ((((k + 1) * c : ℕ) : ℝ) * Real.pi / (D : ℝ)) / ((k + 1 : ℕ) : ℝ)
          * (100000000 * 69720375229712477164533808935312303556800)
        ≤ b * (69720375229712477164533808935312303556800 / ((k : ℝ) + 1)) := by
      intro b hbb
      have h1 : Real.sin ((((k + 1) * c : ℕ) : ℝ) * Real.pi / (D : ℝ)) * 100000000 ≤ b := by
        rw [le_div_iff₀ (by norm_num)] at hbb
        exact hbb
      have h2 : (0 : ℝ) ≤ 69720375229712477164533808935312303556800 / ((k : ℝ) + 1) := by
        positivity
      have h3 := mul_le_mul_of_nonneg_right h1 h2
      push_cast
      calc Real.sin ((((k : ℝ) + 1) * (c : ℝ)) * Real.pi / (D : ℝ)) / ((k : ℝ) + 1)
            * (100000000 * 69720375229712477164533808935312303556800)
          = Real.sin ((((k : ℝ) + 1) * (c : ℝ)) * Real.pi / (D : ℝ)) * 100000000
            * (69720375229712477164533808935312303556800 / ((k : ℝ) + 1)) := by
            field_simp
            ring
        _ ≤ b * (69720375229712477164533808935312303556800 / ((k : ℝ) + 1)) := by
            have := h3
            push_cast at this
            exact this
    by_cases hr : ((k + 1) * c) % (2 * D) ≤ D
    · have ht := hterm _ (hb.1 hr)
      rw [sawAcc, if_pos hr]
      push_cast
      rw [hq]
      push_cast at ht ihk ⊢
      linarith
    · have ht := hterm (-(lo (if 2 * (((k + 1) * c) % (2 * D) - D) ≤ D
          then ((k + 1) * c) % (2 * D) - D else D - (((k + 1) * c) % (2 * D) - D)) : ℝ))
        (by rw [neg_div]; exact hb.2 hr)
      rw [sawAcc, if_neg hr]
      have hsub : ∀ a b : ℕ, (a : ℝ) - (b : ℝ) ≤ ((a - b : ℕ) : ℝ) := by
        intro a b
        have : a ≤ (a - b) + b := by omega
        have h := (Nat.cast_le (α := ℝ)).mpr this
        push_cast at h
        linarith
      refine le_trans ?_ (hsub _ _)
      push_cast
      rw [hq]
      push_cast at ht ihk ⊢
      linarith
theorem sawSum_hasDerivAt (x : ℝ) :
    HasDerivAt (fun y : ℝ => ∑ k ∈ Finset.Ico (1 : ℕ) 100, Real.sin ((k : ℝ) * y) / (k : ℝ))
      (∑ k ∈ Finset.Ico (1 : ℕ) 100, Real.cos ((k : ℝ) * x)) x := by
  apply HasDerivAt.sum
  intro k hk
  have hk0 : (k : ℝ) ≠ 0 := by
    have : 1 ≤ k := (Finset.mem_Ico.mp hk).1
    positivity
  have h := (((hasDerivAt_id x).const_mul (k : ℝ)).sin).div_const (k : ℝ)
  convert h using 1
  simp only [id_eq, mul_one]
  field_simp

theorem sawSum_periodic (x : ℝ) (q : ℤ) :
    (∑ k ∈ Finset.Ico (1 : ℕ) 100, Real.sin ((k : ℝ) * (x + q * (2 * Real.pi))) / (k : ℝ))
      = ∑ k ∈ Finset.Ico (1 : ℕ) 100, Real.sin ((k : ℝ) * x) / (k : ℝ) := by
  apply Finset.sum_congr rfl
  intro k _
  have : (k : ℝ) * (x + q * (2 * Real.pi)) = (k : ℝ) * x + ((k * q : ℤ) : ℝ) * (2 * Real.pi) := by
    push_cast
    ring
  rw [this, Real.sin_add_int_mul_two_pi]

theorem sawSum_neg (x : ℝ) :
    (∑ k ∈ Finset.Ico (1 : ℕ) 100, Real.sin ((k : ℝ) * (-x)) / (k : ℝ))
      = -∑ k ∈ Finset.Ico (1 : ℕ) 100, Real.sin ((k : ℝ) * x) / (k : ℝ) := by
  rw [← Finset.sum_neg_distrib]
  apply Finset.sum_congr rfl
  intro k _
  rw [mul_neg, Real.sin_neg, neg_div]

theorem dirichlet_identity (x : ℝ) (n : ℕ) :
    2 * Real.sin (x / 2) * ∑ k ∈ Finset.Ico (1 : ℕ) (n + 1), Real.cos ((k : ℝ) * x)
      = Real.sin (((n : ℝ) + 1 / 2) * x) - Real.sin (x / 2) := by
  induction n with
  | zero =>
    have h0 : (((0 : ℕ) : ℝ) + 1 / 2) * x = x / 2 := by push_cast; ring
    rw [h0]
    simp
  | succ n ih =>
    rw [Finset.sum_Ico_succ_top (by omega), mul_add, ih]
    have h1 : ((n + 1 : ℕ) : ℝ) * x = ((n : ℝ) + 1 / 2) * x + x / 2 := by push_cast; ring
    have h2 : (((n + 1 : ℕ) : ℝ) + 1 / 2) * x = ((n : ℝ) + 1 / 2) * x + x / 2 + x / 2 := by
      push_cast; ring
    rw [h2, h1, Real.sin_add (((n : ℝ) + 1 / 2) * x + x / 2), Real.sin_add, Real.cos_add]
    have := Real.sin_sq_add_cos_sq (x / 2)
    linear_combination (-Real.sin (((n : ℝ) + 1 / 2) * x)) * this

theorem sawSum_critical {x : ℝ}
    (h : ∑ k ∈ Finset.Ico (1 : ℕ) 100, Real.cos ((k : ℝ) * x) = 0) :
    ∃ k : ℤ, x = 2 * k * Real.pi / 99 ∨ x = (2 * k + 1) * Real.pi / 100 := by
  have hd := dirichlet_identity x 99
  rw [h, mul_zero] at hd
  have hs : Real.sin (x / 2) = Real.sin (((99 : ℕ) + 1 / 2) * x) := by linarith
  obtain ⟨k, hk⟩ := Real.sin_eq_sin_iff.mp hs
  refine ⟨k, ?_⟩
  rcases hk with hk | hk
  · left
    push_cast at hk
    field_simp
    linarith
  · right
    push_cast at hk
    field_simp
    linarith

theorem sawSum_exists_max :
    ∃ z : ℝ, ∀ x : ℝ,
      (∑ k ∈ Finset.Ico (1 : ℕ) 100, Real.sin ((k : ℝ) * x) / (k : ℝ))
        ≤ ∑ k ∈ Finset.Ico (1 : ℕ) 100, Real.sin ((k : ℝ) * z) / (k : ℝ) := by
  have hcont : Continuous
      (fun y : ℝ => ∑ k ∈ Finset.Ico (1 : ℕ) 100, Real.sin ((k : ℝ) * y) / (k : ℝ)) :=
    continuous_iff_continuousAt.mpr fun x => (sawSum_hasDerivAt x).continuousAt
  obtain ⟨z, _, hz⟩ := (isCompact_Icc (a := (0 : ℝ)) (b := 2 * Real.pi)).exists_isMaxOn
    ⟨0, by constructor <;> [exact le_refl 0; positivity]⟩ hcont.continuousOn
  refine ⟨z, fun x => ?_⟩
  have hpi : (0 : ℝ) < 2 * Real.pi := by positivity
  have hper := sawSum_periodic x (-⌊x / (2 * Real.pi)⌋)
  have hmem : x + ((-⌊x / (2 * Real.pi)⌋ : ℤ) : ℝ) * (2 * Real.pi) ∈ Set.Icc 0 (2 * Real.pi) := by
    have h1 := Int.floor_le (x / (2 * Real.pi))
    have h2 := Int.lt_floor_add_one (x / (2 * Real.pi))
    rw [le_div_iff₀ hpi] at h1
    rw [div_lt_iff₀ hpi] at h2
    push_cast
    constructor <;> nlinarith
  rw [← hper]
  exact hz hmem

theorem sawSum_le_of_critical {M : ℝ}
    (hcrit : ∀ k : ℤ,
      (∑ i ∈ Finset.Ico (1 : ℕ) 100,
        Real.sin ((i : ℝ) * (2 * k * Real.pi / 99)) / (i : ℝ)) ≤ M ∧
      (∑ i ∈ Finset.Ico (1 : ℕ) 100,
        Real.sin ((i : ℝ) * ((2 * k + 1) * Real.pi / 100)) / (i : ℝ)) ≤ M) (x : ℝ) :
    |∑ i ∈ Finset.Ico (1 : ℕ) 100, Real.sin ((i : ℝ) * x) / (i : ℝ)| ≤ M := by
  obtain ⟨z, hz⟩ := sawSum_exists_max
  have hloc : IsLocalMax
      (fun y : ℝ => ∑ k ∈ Finset.Ico (1 : ℕ) 100, Real.sin ((k : ℝ) * y) / (k : ℝ)) z :=
    Filter.Eventually.of_forall hz
  have hder := hloc.hasDerivAt_eq_zero (sawSum_hasDerivAt z)
  obtain ⟨k, hk⟩ := sawSum_critical hder
  have hzM : (∑ i ∈ Finset.Ico (1 : ℕ) 100, Real.sin ((i : ℝ) * z) / (i : ℝ)) ≤ M := by
    rcases hk with hk | hk
    · rw [hk]; exact (hcrit k).1
    · rw [hk]; exact (hcrit k).2
  rw [abs_le]
  constructor
  · have := hz (-x)
    rw [sawSum_neg] at this
    linarith
  · exact le_trans (hz x) hzM

theorem sawOK_99 : ∀ j < 99, sawOK 99 sinHi99 sinLo99 (2 * j) = true := by decide!

theorem sawOK_100 : ∀ j < 100, sawOK 100 sinHi100 sinLo100 (2 * j + 1) = true := by decide!

/-- A passed check bounds the partial sum at the angle `c * π / D`. -/
theorem sawSum_le_of_sawOK (D : ℕ) (hD : 0 < D) (hi lo : ℕ → ℕ)
    (hT : ∀ m : ℕ, 2 * m ≤ D → encOK D hi lo m = true) (c : ℕ)
    (hok : sawOK D hi lo c = true) :
    (∑ i ∈ Finset.Ico (1 : ℕ) 100,
      Real.sin ((i : ℝ) * ((c : ℝ) * Real.pi / (D : ℝ))) / (i : ℝ)) ≤ 117 * 31415 / 2000000 := by
  have h := sawAcc_sound D hD hi lo hT c 99 (le_refl 99)
  simp only [sawOK, decide_eq_true_eq] at hok
  have hr : (2000000 : ℝ) * (sawAcc D hi lo c 99 : ℝ)
      ≤ (117 * 31415 * 100000000 + 2000000 * 600000000)
        * 69720375229712477164533808935312303556800 := by exact_mod_cast hok
  norm_num at h hr ⊢
  linarith

/-- The partial sum at every critical point is at most `1.17 * 3.1415 / 2`. -/
theorem sawSum_critical_le (k : ℤ) :
    (∑ i ∈ Finset.Ico (1 : ℕ) 100,
      Real.sin ((i : ℝ) * (2 * k * Real.pi / 99)) / (i : ℝ)) ≤ 117 * 31415 / 2000000 ∧
    (∑ i ∈ Finset.Ico (1 : ℕ) 100,
      Real.sin ((i : ℝ) * ((2 * k + 1) * Real.pi / 100)) / (i : ℝ)) ≤ 117 * 31415 / 2000000 := by
  constructor
  · have hj0 : 0 ≤ k % 99 := Int.emod_nonneg k (by norm_num)
    have hj1 : k % 99 < 99 := Int.emod_lt_of_pos k (by norm_num)
    have hjc : (((k % 99).toNat : ℕ) : ℤ) = k % 99 := Int.toNat_of_nonneg hj0
    have hlt : (k % 99).toNat < 99 := by omega
    have hdecomp : (k : ℝ) = (((k % 99).toNat : ℕ) : ℝ) + ((k / 99 : ℤ) : ℝ) * 99 := by
      have h1 : k = k % 99 + (k / 99) * 99 := by
        have := Int.emod_add_ediv k 99
        linarith
      have h2 : (k : ℝ) = ((k % 99 : ℤ) : ℝ) + ((k / 99 : ℤ) : ℝ) * 99 := by
        exact_mod_cast h1
      rw [h2, ← hjc]
      push_cast
      rfl
    have hx : 2 * (k : ℝ) * Real.pi / 99
        = ((2 * (k % 99).toNat : ℕ) : ℝ) * Real.pi / ((99 : ℕ) : ℝ)
          + ((k / 99 : ℤ) : ℝ) * (2 * Real.pi) := by
      rw [hdecomp]
      push_cast
      ring
    rw [hx, sawSum_periodic]
    exact sawSum_le_of_sawOK 99 (by norm_num) sinHi99 sinLo99
      (fun m hm => encOK_99 m (by omega)) _ (sawOK_99 _ hlt)
  · have hj0 : 0 ≤ k % 100 := Int.emod_nonneg k (by norm_num)
    have hj1 : k % 100 < 100 := Int.emod_lt_of_pos k (by norm_num)
    have hjc : (((k % 100).toNat : ℕ) : ℤ) = k % 100 := Int.toNat_of_nonneg hj0
    have hlt : (k % 100).toNat < 100 := by omega
    have hdecomp : (k : ℝ) = (((k % 100).toNat : ℕ) : ℝ) + ((k / 100 : ℤ) : ℝ) * 100 := by
      have h1 : k = k % 100 + (k / 100) * 100 := by
        have := Int.emod_add_ediv k 100
        linarith
      have h2 : (k : ℝ) = ((k % 100 : ℤ) : ℝ) + ((k / 100 : ℤ) : ℝ) * 100 := by
        exact_mod_cast h1
      rw [h2, ← hjc]
      push_cast
      rfl
    have hx : (2 * (k : ℝ) + 1) * Real.pi / 100
        = ((2 * (k % 100).toNat + 1 : ℕ) : ℝ) * Real.pi / ((100 : ℕ) : ℝ)
          + ((k / 100 : ℤ) : ℝ) * (2 * Real.pi) := by
      rw [hdecomp]
      push_cast
      ring
    rw [hx, sawSum_periodic]
    exact sawSum_le_of_sawOK 100 (by norm_num) sinHi100 sinLo100
      (fun m hm => encOK_100 m (by omega)) _ (sawOK_100 _ hlt)

/-- The scaled partial sum of the saw series stays within `[-1.17, 1.17]`. -/
theorem saw_sum_abs_le_117 (x : ℝ) :
    |(∑ i ∈ Finset.Ico (1 : ℕ) 100, Real.sin ((i : ℝ) * x) / (i : ℝ)) * (2 / Real.pi)|
      ≤ 117 / 100 := by
  have hpi := Real.pi_pos
  have hpl : (31415 / 10000 : ℝ) < Real.pi := by
    have := Real.pi_gt_d4
    norm_num at this ⊢
    linarith
  have h := sawSum_le_of_critical sawSum_critical_le x
  rw [abs_mul, abs_of_pos (div_pos two_pos hpi), mul_div_assoc', div_le_iff₀ hpi]
  linarith

/-- The `SAW_ANALOG` case with the real `sin` and `π`. -/
theorem oscilator_SAW_ANALOG_real (m : MathEnv ℝ) (f t : ℝ) (hsin : m.sin = Real.sin)
    (hPI : m.PI = Real.pi) :
    oscilator m f t .SAW_ANALOG
      = .fin ((∑ i ∈ Finset.Ico (1 : ℕ) 100,
          Real.sin ((i : ℝ) * (2 * Real.pi * f) * t) / (i : ℝ)) * (2 / Real.pi)) := by
  have hPI0 : m.PI ≠ 0 := by rw [hPI]; exact Real.pi_ne_zero
  rw [oscilator_SAW_ANALOG m f t hPI0]
  simp only [w, hsin, hPI]

/-! ## Rounding to a `double` -/

theorem roundHalfEven_sub_le [FloorRing K] (x : K) : |(roundHalfEven x : K) - x| ≤ 1 / 2 := by
  have h0 : 0 ≤ x - ⌊x⌋ := sub_nonneg.mpr (Int.floor_le x)
  have h1 : x - ⌊x⌋ < 1 := by
    have := Int.lt_floor_add_one x
    linarith
  unfold roundHalfEven
  split_ifs with ha hb hc
  · rw [abs_le]; constructor <;> linarith
  · push_cast; rw [abs_le]; constructor <;> linarith
  · have : x - ⌊x⌋ = 1 / 2 := le_antisymm (not_lt.mp hb) (not_lt.mp ha)
    rw [abs_le]; constructor <;> linarith
  · have : x - ⌊x⌋ = 1 / 2 := le_antisymm (not_lt.mp hb) (not_lt.mp ha)
    push_cast; rw [abs_le]; constructor <;> linarith

/-- The rounding of a positive number is positive and has relative error at most `2 ^ (-53)`. -/
theorem roundDouble_pos [FloorRing K] {x : K} (hx : 0 < x) :
    0 < roundDouble x ∧ |roundDouble x - x| ≤ x / 2 ^ 53 := by
  have h2 : (0 : K) < 2 := two_pos
  have hulp : (0 : K) < (2 : K) ^ (Int.log 2 |x| - 52) := zpow_pos h2 _
  have hlog : (2 : K) ^ Int.log 2 |x| ≤ x := by
    have := Int.zpow_log_le_self (b := 2) (r := x) (by norm_num) hx
    rw [abs_of_pos hx]
    exact_mod_cast this
  have hsplit : (2 : K) ^ Int.log 2 |x| = 2 ^ 52 * (2 : K) ^ (Int.log 2 |x| - 52) := by
    rw [zpow_sub₀ h2.ne']
    have : ((2 : K) ^ (52 : ℤ)) = 2 ^ 52 := by norm_cast
    rw [this]
    field_simp
  have hm : (2 : K) ^ 52 ≤ x / (2 : K) ^ (Int.log 2 |x| - 52) := by
    rw [le_div_iff₀ hulp, ← hsplit]
    exact hlog
  have hr := roundHalfEven_sub_le (x / (2 : K) ^ (Int.log 2 |x| - 52))
  have hr2 := abs_le.mp hr
  have hn : (0 : K) < (roundHalfEven (x / (2 : K) ^ (Int.log 2 |x| - 52)) : K) := by
    have : (1 : K) ≤ 2 ^ 52 := one_le_pow₀ (by norm_num)
    linarith
  unfold roundDouble
  rw [if_neg hx.ne']
  refine ⟨mul_pos hn hulp, ?_⟩
  have hxm : x = x / (2 : K) ^ (Int.log 2 |x| - 52) * (2 : K) ^ (Int.log 2 |x| - 52) := by
    field_simp
  have : (roundHalfEven (x / (2 : K) ^ (Int.log 2 |x| - 52)) : K)
        * (2 : K) ^ (Int.log 2 |x| - 52) - x
      = ((roundHalfEven (x / (2 : K) ^ (Int.log 2 |x| - 52)) : K)
        - x / (2 : K) ^ (Int.log 2 |x| - 52)) * (2 : K) ^ (Int.log 2 |x| - 52) := by
    rw [sub_mul, ← hxm]
  rw [this, abs_mul, abs_of_pos hulp]
  have h3 : (2 : K) ^ (Int.log 2 |x| - 52) * 2 ^ 52 ≤ x := by
    rw [mul_comm, ← hsplit]; exact hlog
  rw [le_div_iff₀ (by positivity)]
  calc |(roundHalfEven (x / (2 : K) ^ (Int.log 2 |x| - 52)) : K)
        - x / (2 : K) ^ (Int.log 2 |x| - 52)| * (2 : K) ^ (Int.log 2 |x| - 52) * 2 ^ 53
      ≤ 1 / 2 * (2 : K) ^ (Int.log 2 |x| - 52) * 2 ^ 53 := by gcongr
    _ = (2 : K) ^ (Int.log 2 |x| - 52) * 2 ^ 52 := by ring
    _ ≤ x := h3

/-- The double nearest to `1/10` is `3602879701896397 / 2 ^ 55`, slightly above `1/10`. -/
theorem roundDouble_one_tenth [FloorRing K] :
    roundDouble (1 / 10 : K) = 3602879701896397 / 36028797018963968 := by
  have hpos : (0 : K) < 1 / 10 := by norm_num
  have hlog : Int.log 2 |(1 / 10 : K)| = -4 := by
    rw [abs_of_pos hpos]
    have h1 : (-4 : ℤ) ≤ Int.log 2 (1 / 10 : K) :=
      (Int.zpow_le_iff_le_log (b := 2) (by norm_num) hpos).mp (by norm_num [zpow_neg])
    have h2 : Int.log 2 (1 / 10 : K) < -3 :=
      (Int.lt_zpow_iff_log_lt (b := 2) (by norm_num) hpos).mp (by norm_num [zpow_neg])
    omega
  have hulp : (2 : K) ^ (-4 - 52 : ℤ) = 1 / 72057594037927936 := by
    norm_num [zpow_neg]
  have hm : (1 / 10 : K) / (1 / 72057594037927936) = 36028797018963968 / 5 := by norm_num
  have hfloor : ⌊(36028797018963968 / 5 : K)⌋ = 7205759403792793 := by
    rw [Int.floor_eq_iff]
    constructor <;> norm_num
  unfold roundDouble
  rw [if_neg hpos.ne', hlog, hulp, hm]
  unfold roundHalfEven
  rw [hfloor]
  norm_num

/-! ## The renderer, the oscillator and the key loop: contract -/

/-- C11: for every envelope state, stored pitch `f` and time `t`, `makeNoise(t)` returns
`GetAmplitude(t)` multiplied by the analogue saw value
`(2 / PI) * sum_{n=1}^{99} sin(n * (2 * PI * f) * t) / n`, and it leaves the envelope and the
pitch unchanged.  (`PI ≠ 0` is what makes `2.0 / PI` finite; the loop of the saw needs no more
fuel than 100 tests of its condition.) -/
theorem makeNoise_eq [FloorRing K] (m : MathEnv K) (g : Globals K) (dTime : K)
    (hPI : m.PI ≠ 0) :
    (makeNoise m g dTime).1
      = Dbl.mul (g.envelope.GetAmplitude dTime)
          (.fin ((2 / m.PI) * ∑ n ∈ Finset.Icc (1 : ℕ) 99,
            m.sin ((n : K) * (2 * m.PI * g.dFrequencyOutput) * dTime) / (n : K))) ∧
    (makeNoise m g dTime).2.envelope = g.envelope ∧
    (makeNoise m g dTime).2.dFrequencyOutput = g.dFrequencyOutput ∧
    (∀ fuel : ℕ, 100 ≤ fuel →
      sawAnalogLoop m g.dFrequencyOutput dTime fuel 1 (.fin 0)
        = sawAnalogLoop m g.dFrequencyOutput dTime 100 1 (.fin 0)) := by
  have hIcc : Finset.Icc (1 : ℕ) 99 = Finset.Ico 1 100 := by
    ext i
    simp only [Finset.mem_Icc, Finset.mem_Ico]
    omega
  refine ⟨?_, rfl, rfl, fun fuel hfuel => ?_⟩
  · simp only [makeNoise, oscilator_SAW_ANALOG m _ _ hPI, hIcc, w, mul_comm (2 / m.PI)]
  · have h1 := sawAnalogLoop_eq m g.dFrequencyOutput dTime fuel 0 0 (by omega) (by omega)
    have h2 := sawAnalogLoop_eq m g.dFrequencyOutput dTime 100 0 0 (by omega) (by omega)
    simp only [Nat.cast_zero, zero_add] at h1 h2
    rw [h1, h2]

/-- Witness of C11: the real `sin` and `π`, the wired envelope after `NoteOn(0)`, pitch 110 Hz,
time 1. -/
theorem makeNoise_eq_witness :
    Real.pi ≠ 0 ∧
    (makeNoise (⟨Real.sin, Real.arcsin, fun x y => x ^ y, Real.pi, 0, 1⟩ : MathEnv ℝ)
        ⟨110, (envelope : sEnvelopeADSR ℝ).NoteOn 0⟩ 1).1
      = Dbl.mul (((envelope : sEnvelopeADSR ℝ).NoteOn 0).GetAmplitude 1)
          (.fin ((2 / Real.pi) * ∑ n ∈ Finset.Icc (1 : ℕ) 99,
            Real.sin ((n : ℝ) * (2 * Real.pi * 110) * 1) / (n : ℝ))) :=
  ⟨Real.pi_ne_zero,
    (makeNoise_eq (⟨Real.sin, Real.arcsin, fun x y => x ^ y, Real.pi, 0, 1⟩ : MathEnv ℝ)
      ⟨110, (envelope : sEnvelopeADSR ℝ).NoteOn 0⟩ 1 Real.pi_ne_zero).1⟩

/-- C12: with the real power for `pow`, the frequency stored for key `k` in `0..15`,
`dOctaveBaseFrequency * pow(d12thRootOf2, k)` with base 110 and `d12thRootOf2 = 2^(1/12)`, is
`110 * 2^(k/12)`; it is strictly increasing in `k`; key 0 gives 110 and key 12 gives 220. -/
theorem keyFrequency_eq (m : MathEnv ℝ) (hpow : ∀ x y : ℝ, m.pow x y = x ^ y) :
    (dOctaveBaseFrequency : ℝ) = 110 ∧ d12thRootOf2 m = (2 : ℝ) ^ ((1 : ℝ) / 12) ∧
    (∀ k : ℕ, k ≤ 15 → keyFrequency m k = 110 * (2 : ℝ) ^ ((k : ℝ) / 12)) ∧
    (∀ j k : ℕ, j ≤ 15 → k ≤ 15 → j < k → keyFrequency m j < keyFrequency m k) ∧
    keyFrequency m 0 = 110 ∧ keyFrequency m 12 = 220 := by
  have key : ∀ k : ℕ, keyFrequency m k = 110 * (2 : ℝ) ^ ((k : ℝ) / 12) := by
    intro k
    unfold keyFrequency d12thRootOf2 dOctaveBaseFrequency
    rw [hpow, hpow, ← Real.rpow_mul (by norm_num : (0 : ℝ) ≤ 2)]
    congr 2
    ring
  refine ⟨rfl, ?_, fun k _ => key k, ?_, ?_, ?_⟩
  · unfold d12thRootOf2
    rw [hpow]
  · intro j k _ _ hjk
    rw [key, key]
    have hcast : (j : ℝ) / 12 < (k : ℝ) / 12 :=
      div_lt_div_of_pos_right (Nat.cast_lt.mpr hjk) (by norm_num)
    have hpowlt : (2 : ℝ) ^ ((j : ℝ) / 12) < (2 : ℝ) ^ ((k : ℝ) / 12) :=
      Real.rpow_lt_rpow_of_exponent_lt (by norm_num) hcast
    linarith
  · rw [key]
    norm_num
  · rw [key]
    norm_num

/-- Witness of C12: the real `sin`, `arcsin`, power and `π`; key 12 is one octave above the
base. -/
theorem keyFrequency_eq_witness :
    (∀ x y : ℝ, (⟨Real.sin, Real.arcsin, fun x y => x ^ y, Real.pi, 0, 1⟩ : MathEnv ℝ).pow x y
      = x ^ y) ∧
    keyFrequency (⟨Real.sin, Real.arcsin, fun x y => x ^ y, Real.pi, 0, 1⟩ : MathEnv ℝ) 12
      = 220 :=
  ⟨fun _ _ => rfl,
    (keyFrequency_eq (⟨Real.sin, Real.arcsin, fun x y => x ^ y, Real.pi, 0, 1⟩ : MathEnv ℝ)
      (fun _ _ => rfl)).2.2.2.2.2⟩

/-- C13: with the real `sin` and `π`, the sine waveform is `sin(2 * π * f * t)` and, for
`f > 0`, it is periodic with period `1 / f`:
`oscilator(f, t + 1/f, SINE) = oscilator(f, t, SINE)`. -/
theorem oscilator_SINE_periodic (m : MathEnv ℝ) (f t : ℝ) (hsin : m.sin = Real.sin)
    (hPI : m.PI = Real.pi) (hf : 0 < f) :
    oscilator m f t .SINE = .fin (Real.sin (2 * Real.pi * f * t)) ∧
    oscilator m f (t + 1 / f) .SINE = oscilator m f t .SINE := by
  have hf0 : f ≠ 0 := hf.ne'
  refine ⟨?_, ?_⟩
  · simp only [oscilator, w, hsin, hPI]
  · simp only [oscilator, w, hsin, hPI]
    have : 2 * Real.pi * f * (t + 1 / f) = 2 * Real.pi * f * t + 2 * Real.pi := by
      field_simp
      ring
    rw [this, Real.sin_add_two_pi]

/-- Witness of C13: the real `sin` and `π` at `f = 110`, `t = 1`. -/
theorem oscilator_SINE_periodic_witness :
    ((0 : ℝ) < 110) ∧
    oscilator (⟨Real.sin, Real.arcsin, fun x y => x ^ y, Real.pi, 0, 1⟩ : MathEnv ℝ) 110
        (1 + 1 / 110) .SINE
      = oscilator (⟨Real.sin, Real.arcsin, fun x y => x ^ y, Real.pi, 0, 1⟩ : MathEnv ℝ) 110 1
        .SINE :=
  ⟨by norm_num,
    (oscilator_SINE_periodic (⟨Real.sin, Real.arcsin, fun x y => x ^ y, Real.pi, 0, 1⟩ :
      MathEnv ℝ) 110 1 rfl rfl (by norm_num)).2⟩

/-- C14: for every frequency `f` and time `t`, `oscilator(f, t, SQUARE)` is exactly `+1` or
exactly `-1`: `+1` when `sin(2 * PI * f * t) > 0` and `-1` otherwise, in particular when that
sine is exactly `0`. -/
theorem oscilator_SQUARE_values [FloorRing K] (m : MathEnv K) (f t : K) :
    (oscilator m f t .SQUARE = .fin 1 ∨ oscilator m f t .SQUARE = .fin (-1)) ∧
    (m.sin (2 * m.PI * f * t) > 0 → oscilator m f t .SQUARE = .fin 1) ∧
    (¬ m.sin (2 * m.PI * f * t) > 0 → oscilator m f t .SQUARE = .fin (-1)) ∧
    (m.sin (2 * m.PI * f * t) = 0 → oscilator m f t .SQUARE = .fin (-1)) := by
  have hpos : m.sin (2 * m.PI * f * t) > 0 → oscilator m f t .SQUARE = .fin 1 := by
    intro h
    simp only [oscilator, w, if_pos h]
  have hneg : ¬ m.sin (2 * m.PI * f * t) > 0 → oscilator m f t .SQUARE = .fin (-1) := by
    intro h
    simp only [oscilator, w, if_neg h]
  refine ⟨?_, hpos, hneg, fun h0 => hneg (by rw [h0]; exact lt_irrefl 0)⟩
  by_cases h : m.sin (2 * m.PI * f * t) > 0
  · exact Or.inl (hpos h)
  · exact Or.inr (hneg h)

/-- C16 (the claim fails here): with the real `sin` and `π`, at `f = 10 > 0` and `t = 1 ≥ 0`
the claimed value `2 * f * (t mod 1/f) - 1` is `-1`, since `t` is a multiple of `1/f`; but the
period passed to `fmod` is the double `1.0 / 10.0`, which is slightly more than `1/10`, so that
`fmod` returns almost a whole period and `oscilator(f, t, SAW_DIGITAL)` is `1 - 9 / 2^53`,
just below `+1`. -/
theorem oscilator_SAW_DIGITAL_period_rounded :
    (0 : ℝ) < 10 ∧ (0 : ℝ) ≤ 1 ∧
    2 * 10 * ((1 : ℝ) - (⌊(1 : ℝ) / (1 / 10)⌋ : ℝ) * (1 / 10)) - 1 = -1 ∧
    roundDouble ((1 : ℝ) / 10) = 3602879701896397 / 36028797018963968 ∧
    oscilator (⟨Real.sin, Real.arcsin, fun x y => x ^ y, Real.pi, 0, 1⟩ : MathEnv ℝ)
      10 1 .SAW_DIGITAL = .fin (1 - 9 / 2 ^ 53) ∧
    (1 - 9 / 2 ^ 53 : ℝ) ≠ -1 ∧ (999 / 1000 : ℝ) < 1 - 9 / 2 ^ 53 := by
  have hfl : ⌊(1 : ℝ) / (1 / 10)⌋ = 10 := by
    rw [Int.floor_eq_iff]
    constructor <;> norm_num
  have hq : ⌊(1 : ℝ) / (3602879701896397 / 36028797018963968)⌋ = 9 := by
    rw [Int.floor_eq_iff]
    constructor <;> norm_num
  have hq0 : (0 : ℝ) ≤ 1 / (3602879701896397 / 36028797018963968) := by norm_num
  have hp0 : (3602879701896397 / 36028797018963968 : ℝ) ≠ 0 := by norm_num
  have h10 : (10 : ℝ) ≠ 0 := by norm_num
  have h2 : (2 : ℝ) ≠ 0 := two_ne_zero
  have hpi : Real.pi ≠ 0 := Real.pi_ne_zero
  refine ⟨by norm_num, by norm_num, ?_, roundDouble_one_tenth, ?_, by norm_num, by norm_num⟩
  · rw [hfl]
    norm_num
  · simp only [oscilator, Dbl.div_fin _ h10, Dbl.div_fin _ hpi, Dbl.div_fin _ h2, Dbl.round,
      roundDouble_one_tenth, Dbl.fmod, if_neg hp0, truncate, if_pos hq0, hq, Dbl.mul_fin,
      Dbl.sub]
    congr 1
    field_simp
    ring

/-- C16 (amended): for `f > 0` and `t ≥ 0` (and `PI ≠ 0`), let `p` be the double nearest to
`1/f`, the value of `1.0 / f`; it is positive and within `2^(-53) / f` of `1/f`.  With
`r = t mod p`, that is `r = t - floor(t / p) * p`, which is the value of `fmod(t, 1.0 / f)` and
lies in `[0, p)`: `oscilator(f, t, SAW_DIGITAL)` is `(2 / PI) * (f * PI * r - PI / 2)`, which
equals `2 * f * r - 1` and lies in `[-1, 1 + 2^(-52))`.  Where `1/f` is itself a double
(`p = 1/f`), `r` is `t mod 1/f`. -/
theorem oscilator_SAW_DIGITAL_eq [FloorRing K] (m : MathEnv K) (f t : K)
    (hf : 0 < f) (ht : 0 ≤ t) (hPI : m.PI ≠ 0) :
    ∃ p r : K, p = roundDouble (1 / f) ∧ 0 < p ∧ |p - 1 / f| ≤ 1 / f / 2 ^ 53 ∧
      r = t - (⌊t / p⌋ : K) * p ∧
      Dbl.fmod (.fin t) (Dbl.round (Dbl.div (.fin 1) (.fin f))) = .fin r ∧
      0 ≤ r ∧ r < p ∧
      oscilator m f t .SAW_DIGITAL = .fin ((2 / m.PI) * (f * m.PI * r - m.PI / 2)) ∧
      (2 / m.PI) * (f * m.PI * r - m.PI / 2) = 2 * f * r - 1 ∧
      -1 ≤ 2 * f * r - 1 ∧ 2 * f * r - 1 < 1 + 1 / 2 ^ 52 ∧
      (p = 1 / f → r = t - (⌊t / (1 / f)⌋ : K) * (1 / f)) := by
  have hf0 : f ≠ 0 := hf.ne'
  have hinv : 0 < 1 / f := one_div_pos.mpr hf
  obtain ⟨hp, herr⟩ := roundDouble_pos hinv
  have hp0 : roundDouble (1 / f) ≠ 0 := hp.ne'
  have hq : 0 ≤ t / roundDouble (1 / f) := div_nonneg ht hp.le
  have htq : t / roundDouble (1 / f) * roundDouble (1 / f) = t := div_mul_cancel₀ t hp0
  have hfmod : Dbl.fmod (.fin t) (Dbl.round (Dbl.div (.fin 1) (.fin f)))
      = .fin (t - (⌊t / roundDouble (1 / f)⌋ : K) * roundDouble (1 / f)) := by
    rw [Dbl.div_fin _ hf0]
    simp only [Dbl.round, Dbl.fmod, if_neg hp0, truncate, if_pos hq]
  have hr0 : 0 ≤ t - (⌊t / roundDouble (1 / f)⌋ : K) * roundDouble (1 / f) := by
    have h1 : (⌊t / roundDouble (1 / f)⌋ : K) * roundDouble (1 / f)
        ≤ t / roundDouble (1 / f) * roundDouble (1 / f) :=
      mul_le_mul_of_nonneg_right (Int.floor_le _) hp.le
    rw [htq] at h1
    linarith
  have hr1 : t - (⌊t / roundDouble (1 / f)⌋ : K) * roundDouble (1 / f)
      < roundDouble (1 / f) := by
    have h1 : t / roundDouble (1 / f) * roundDouble (1 / f)
        < ((⌊t / roundDouble (1 / f)⌋ : K) + 1) * roundDouble (1 / f) :=
      mul_lt_mul_of_pos_right (Int.lt_floor_add_one _) hp
    rw [htq] at h1
    linarith
  have h2 : (2 : K) ≠ 0 := two_ne_zero
  have hfr : f * (1 / f) = 1 := mul_one_div_cancel hf0
  have hpow : (0 : K) < 2 ^ 53 := by positivity
  have hup : f * roundDouble (1 / f) ≤ 1 + 1 / 2 ^ 53 := by
    have h1 : roundDouble (1 / f) ≤ 1 / f + 1 / f / 2 ^ 53 := by
      have := (abs_le.mp herr).2
      linarith
    have h3 := mul_le_mul_of_nonneg_left h1 hf.le
    have h4 : f * (1 / f + 1 / f / 2 ^ 53) = 1 + 1 / 2 ^ 53 := by
      field_simp
      ring
    rw [h4] at h3
    exact h3
  refine ⟨roundDouble (1 / f), _, rfl, hp, herr, rfl, hfmod, hr0, hr1, ?_, ?_, ?_, ?_, ?_⟩
  · simp only [oscilator, hfmod, Dbl.div_fin _ hPI, Dbl.div_fin _ h2, Dbl.mul_fin, Dbl.sub,
      mul_assoc]
  · field_simp
    ring
  · have := mul_nonneg hf.le hr0
    linarith
  · have h3 : f * (t - (⌊t / roundDouble (1 / f)⌋ : K) * roundDouble (1 / f))
        < f * roundDouble (1 / f) := mul_lt_mul_of_pos_left hr1 hf
    have h4 : (1 : K) / 2 ^ 52 = 2 * (1 / 2 ^ 53) := by norm_num
    rw [h4]
    linarith
  · intro hexact
    rw [hexact]

/-- Witness of C16 (amended): the real `sin` and `π` at `f = 2`, `t = 3/4`. -/
theorem oscilator_SAW_DIGITAL_eq_witness :
    ((0 : ℝ) < 2 ∧ (0 : ℝ) ≤ 3 / 4 ∧ Real.pi ≠ 0) ∧
    ∃ p r : ℝ, p = roundDouble (1 / 2) ∧ 0 < p ∧ |p - 1 / 2| ≤ 1 / 2 / 2 ^ 53 ∧
      r = 3 / 4 - (⌊(3 / 4 : ℝ) / p⌋ : ℝ) * p ∧
      Dbl.fmod (.fin (3 / 4)) (Dbl.round (Dbl.div (.fin 1) (.fin 2))) = .fin r ∧
      0 ≤ r ∧ r < p ∧
      oscilator (⟨Real.sin, Real.arcsin, fun x y => x ^ y, Real.pi, 0, 1⟩ : MathEnv ℝ) 2
          (3 / 4) .SAW_DIGITAL
        = .fin ((2 / Real.pi) * (2 * Real.pi * r - Real.pi / 2)) ∧
      (2 / Real.pi) * (2 * Real.pi * r - Real.pi / 2) = 2 * 2 * r - 1 ∧
      -1 ≤ 2 * 2 * r - 1 ∧ 2 * 2 * r - 1 < 1 + 1 / 2 ^ 52 ∧
      (p = 1 / 2 → r = 3 / 4 - (⌊(3 / 4 : ℝ) / (1 / 2)⌋ : ℝ) * (1 / 2)) :=
  ⟨⟨by norm_num, by norm_num, Real.pi_ne_zero⟩,
    oscilator_SAW_DIGITAL_eq (⟨Real.sin, Real.arcsin, fun x y => x ^ y, Real.pi, 0, 1⟩ :
      MathEnv ℝ) 2 (3 / 4) (by norm_num) (by norm_num) Real.pi_ne_zero⟩

/-- C17: after a non-empty sequence of `NoteOn` / `NoteOff` calls on any initial envelope,
`bNoteOn` is true exactly when the last call was a `NoteOn`; if it is true, `dTriggerOnTime` is
the time of the most recent `NoteOn`; if it is false, `dTriggerOffTime` is the time of the most
recent `NoteOff`; and the ADSR parameters are those of the initial envelope. -/
theorem runCalls_invariant {T : Type} (e : sEnvelopeADSR T) (calls : List (EnvCall T))
    (hne : calls ≠ []) :
    ((runCalls e calls).bNoteOn = true ↔ ∃ t : T, calls.getLast? = some (.NoteOn t)) ∧
    ((runCalls e calls).bNoteOn = true →
      lastOnTime calls = some (runCalls e calls).dTriggerOnTime) ∧
    ((runCalls e calls).bNoteOn = false →
      lastOffTime calls = some (runCalls e calls).dTriggerOffTime) ∧
    ((runCalls e calls).dAttackTime = e.dAttackTime ∧
      (runCalls e calls).dDecayTime = e.dDecayTime ∧
      (runCalls e calls).dSustainAmplitude = e.dSustainAmplitude ∧
      (runCalls e calls).dReleaseTime = e.dReleaseTime ∧
      (runCalls e calls).dStartAmplitude = e.dStartAmplitude) := by
  refine ⟨?_, ?_, ?_, runCalls_params calls e⟩
  all_goals
    rcases List.eq_nil_or_concat calls with h | ⟨front, c, h⟩
    · exact absurd h hne
    · subst h
      simp only [List.concat_eq_append, runCalls_concat, lastOnTime_concat,
        lastOffTime_concat]
      cases c <;>
        simp [EnvCall.apply, sEnvelopeADSR.NoteOn, sEnvelopeADSR.NoteOff]

/-- Witness of C17: `NoteOn(0)`, `NoteOff(0.5)`, `NoteOn(0.6)` on the worked example. -/
theorem runCalls_invariant_witness :
    ([EnvCall.NoteOn 0, EnvCall.NoteOff (1 / 2), EnvCall.NoteOn (6 / 10)] : List (EnvCall ℚ))
      ≠ [] ∧
    (runCalls testEnvelope [.NoteOn 0, .NoteOff (1 / 2), .NoteOn (6 / 10)]).bNoteOn = true ∧
    (runCalls testEnvelope [.NoteOn 0, .NoteOff (1 / 2), .NoteOn (6 / 10)]).dTriggerOnTime
      = 6 / 10 := by
  have hne : ([EnvCall.NoteOn 0, EnvCall.NoteOff (1 / 2), EnvCall.NoteOn (6 / 10)] :
      List (EnvCall ℚ)) ≠ [] := by simp
  have h := runCalls_invariant testEnvelope _ hne
  have hOn := h.1.mpr ⟨6 / 10, rfl⟩
  have hT := h.2.1 hOn
  refine ⟨hne, hOn, ?_⟩
  simp only [lastOnTime, Option.orElse] at hT
  exact (Option.some.inj hT).symm

/-- C18: with `releaseTime > 0`, `sustainLevel ≥ 0` and the gate closed, at every
`time ≥ triggerOffTime + releaseTime` the release ramp is non-positive, `GetAmplitude(time)` is
`0`, and `makeNoise(time)` is `0` whatever the stored pitch (`PI ≠ 0` makes the oscillator
value finite). -/
theorem makeNoise_silent_after_release [FloorRing K] (m : MathEnv K) (g : Globals K)
    (dTime : K) (hPI : m.PI ≠ 0) (hR : 0 < g.envelope.dReleaseTime)
    (hS : 0 ≤ g.envelope.dSustainAmplitude) (hOff : g.envelope.bNoteOn = false)
    (ht : g.envelope.dTriggerOffTime + g.envelope.dReleaseTime ≤ dTime) :
    (dTime - g.envelope.dTriggerOffTime) / g.envelope.dReleaseTime
        * (0 - g.envelope.dSustainAmplitude) + g.envelope.dSustainAmplitude ≤ 0 ∧
    g.envelope.GetAmplitude dTime = .fin 0 ∧
    (makeNoise m g dTime).1 = .fin 0 := by
  have hq : 1 ≤ (dTime - g.envelope.dTriggerOffTime) / g.envelope.dReleaseTime :=
    (one_le_div hR).mpr (by linarith)
  have hv : (dTime - g.envelope.dTriggerOffTime) / g.envelope.dReleaseTime
      * (0 - g.envelope.dSustainAmplitude) + g.envelope.dSustainAmplitude ≤ 0 := by
    have := mul_nonneg (sub_nonneg.mpr hq) hS
    linarith
  have hamp : g.envelope.GetAmplitude dTime = .fin 0 := by
    rw [GetAmplitude_release g.envelope dTime hOff hR.ne',
      clamp_of_le (le_trans hv (by norm_num))]
  refine ⟨hv, hamp, ?_⟩
  simp only [makeNoise, hamp, oscilator_SAW_ANALOG m _ _ hPI, Dbl.mul_fin, zero_mul]

/-- Witness of C18: the real `sin` and `π`; the worked example released at `0.5`, pitch 110 Hz,
rendered at `time = 0.7`. -/
theorem makeNoise_silent_after_release_witness :
    (makeNoise (⟨Real.sin, Real.arcsin, fun x y => x ^ y, Real.pi, 0, 1⟩ : MathEnv ℝ)
      ⟨110, ((sEnvelopeADSR.init4 (1 / 10) (1 / 100) (8 / 10) (1 / 10) :
        sEnvelopeADSR ℝ).NoteOn 0).NoteOff (1 / 2)⟩ (7 / 10)).1 = .fin 0 :=
  (makeNoise_silent_after_release
    (⟨Real.sin, Real.arcsin, fun x y => x ^ y, Real.pi, 0, 1⟩ : MathEnv ℝ)
    ⟨110, ((sEnvelopeADSR.init4 (1 / 10) (1 / 100) (8 / 10) (1 / 10) :
      sEnvelopeADSR ℝ).NoteOn 0).NoteOff (1 / 2)⟩ (7 / 10) Real.pi_ne_zero
    (by norm_num [sEnvelopeADSR.init4, sEnvelopeADSR.NoteOn, sEnvelopeADSR.NoteOff])
    (by norm_num [sEnvelopeADSR.init4, sEnvelopeADSR.NoteOn, sEnvelopeADSR.NoteOff])
    rfl
    (by norm_num [sEnvelopeADSR.init4, sEnvelopeADSR.NoteOn, sEnvelopeADSR.NoteOff])).2.2

/-- C19 (the claim fails here): in the initial state the amplitude is already `0` at
`time = 0.099995`, a time in `[0, 0.1)`, because the release ramp `1 - 10 * t` is then at most
`0.0001` and is clamped. -/
theorem GetAmplitude_init_zero_before_release_end :
    (0 : ℚ) ≤ 99995 / 1000000 ∧ (99995 / 1000000 : ℚ) < 1 / 10 ∧
    (Globals.init : Globals ℚ).dFrequencyOutput = 0 ∧
    (Globals.init : Globals ℚ).envelope = sEnvelopeADSR.init4 0 (1 / 10) 1 (1 / 10) ∧
    (Globals.init : Globals ℚ).envelope.GetAmplitude (99995 / 1000000) = .fin 0 := by
  refine ⟨by norm_num, by norm_num, rfl, rfl, ?_⟩
  norm_num [Globals.init, envelope, sEnvelopeADSR.init4, sEnvelopeADSR.GetAmplitude,
    clampAmplitude, Dbl.div, Dbl.mul, Dbl.add, Dbl.le]

/-- C19 (amended): in the initial state (`dFrequencyOutput = 0`, `envelope(0.0, 0.1, 1.0, 0.1)`,
gate closed, `dTriggerOffTime = 0`), with `sin 0 = 0` and `PI ≠ 0`, the analogue saw is `0` at
frequency `0` and `makeNoise(t) = 0` for every `t ≥ 0`, even though `GetAmplitude(t)` is
non-zero for `0 ≤ t < 0.09999`; from `t = 0.09999` on, `GetAmplitude(t)` is `0`. -/
theorem makeNoise_init_silent [FloorRing K] (m : MathEnv K) (hsin : m.sin 0 = 0)
    (hPI : m.PI ≠ 0) :
    (∀ t : K, oscilator m (Globals.init : Globals K).dFrequencyOutput t .SAW_ANALOG = .fin 0) ∧
    (∀ t : K, 0 ≤ t → (makeNoise m (Globals.init : Globals K) t).1 = .fin 0) ∧
    (∀ t : K, 0 ≤ t → t < 9999 / 100000 →
      ∃ a : K, (Globals.init : Globals K).envelope.GetAmplitude t = .fin a ∧ a ≠ 0) ∧
    (∀ t : K, 9999 / 100000 ≤ t →
      (Globals.init : Globals K).envelope.GetAmplitude t = .fin 0) := by
  have hosc : ∀ t : K,
      oscilator m (Globals.init : Globals K).dFrequencyOutput t .SAW_ANALOG = .fin 0 := by
    intro t
    rw [oscilator_SAW_ANALOG m _ _ hPI]
    simp [Globals.init, w, hsin]
  refine ⟨hosc, fun t _ => ?_, fun t _ ht => ?_, fun t ht => ?_⟩
  · simp only [makeNoise, hosc, GetAmplitude_init, Dbl.mul_fin, mul_zero]
  · have hv : (1 : K) / 10000 < 1 - 10 * t := by linarith
    refine ⟨1 - 10 * t, ?_, ?_⟩
    · rw [GetAmplitude_init, clamp_of_gt hv]
    · have : (0 : K) < 1 - 10 * t := lt_trans (by norm_num) hv
      exact this.ne'
  · rw [GetAmplitude_init, clamp_of_le (by linarith)]

/-- Witness of C19 (amended): the real `sin` and `π`; the initial state rendered at
`time = 0.05`. -/
theorem makeNoise_init_silent_witness :
    (Real.sin 0 = 0 ∧ Real.pi ≠ 0) ∧
    (makeNoise (⟨Real.sin, Real.arcsin, fun x y => x ^ y, Real.pi, 0, 1⟩ : MathEnv ℝ)
      (Globals.init : Globals ℝ) (5 / 100)).1 = .fin 0 :=
  ⟨⟨Real.sin_zero, Real.pi_ne_zero⟩,
    (makeNoise_init_silent (⟨Real.sin, Real.arcsin, fun x y => x ^ y, Real.pi, 0, 1⟩ :
      MathEnv ℝ) Real.sin_zero Real.pi_ne_zero).2.1 (5 / 100) (by norm_num)⟩

/-- C20: one pass of the body of the main loop over the 16 key states.  If exactly one key `k`
is down and `nCurrentKey` is already `k`, the pass calls neither `NoteOn` nor `NoteOff` and
leaves pitch, envelope and `nCurrentKey` unchanged.  If exactly one key `k` is down and
`nCurrentKey ≠ k`, it sets the pitch to the frequency of `k`, calls `NoteOn` once and sets
`nCurrentKey = k`.  If no key is down and `nCurrentKey ≠ -1`, it calls `NoteOff` once, sets
`nCurrentKey = -1` and leaves the pitch unchanged.  If no key is down and `nCurrentKey = -1`,
nothing changes. -/
theorem pollPass_cases (m : MathEnv K) (keyDown : ℕ → Bool) (GetTime : ℕ → K) (dTimeOff : K)
    (s : MainState K) :
    (∀ k : ℕ, k < 16 → (∀ j : ℕ, j < 16 → (keyDown j = true ↔ j = k)) →
      s.nCurrentKey = (k : ℤ) →
        (pollPass m keyDown GetTime dTimeOff s).calls = s.calls ∧
        (pollPass m keyDown GetTime dTimeOff s).globals = s.globals ∧
        (pollPass m keyDown GetTime dTimeOff s).nCurrentKey = s.nCurrentKey) ∧
    (∀ k : ℕ, k < 16 → (∀ j : ℕ, j < 16 → (keyDown j = true ↔ j = k)) →
      s.nCurrentKey ≠ (k : ℤ) →
        (pollPass m keyDown GetTime dTimeOff s).globals.dFrequencyOutput = keyFrequency m k ∧
        (pollPass m keyDown GetTime dTimeOff s).calls = s.calls ++ [.NoteOn (GetTime k)] ∧
        (pollPass m keyDown GetTime dTimeOff s).globals.envelope
          = s.globals.envelope.NoteOn (GetTime k) ∧
        (pollPass m keyDown GetTime dTimeOff s).nCurrentKey = (k : ℤ)) ∧
    ((∀ j : ℕ, j < 16 → keyDown j = false) → s.nCurrentKey ≠ -1 →
        (pollPass m keyDown GetTime dTimeOff s).calls = s.calls ++ [.NoteOff dTimeOff] ∧
        (pollPass m keyDown GetTime dTimeOff s).globals.envelope
          = s.globals.envelope.NoteOff dTimeOff ∧
        (pollPass m keyDown GetTime dTimeOff s).nCurrentKey = -1 ∧
        (pollPass m keyDown GetTime dTimeOff s).globals.dFrequencyOutput
          = s.globals.dFrequencyOutput) ∧
    ((∀ j : ℕ, j < 16 → keyDown j = false) → s.nCurrentKey = -1 →
        (pollPass m keyDown GetTime dTimeOff s).calls = s.calls ∧
        (pollPass m keyDown GetTime dTimeOff s).globals = s.globals ∧
        (pollPass m keyDown GetTime dTimeOff s).nCurrentKey = s.nCurrentKey) := by
  have hone : ∀ k : ℕ, k < 16 → (∀ j : ℕ, j < 16 → (keyDown j = true ↔ j = k)) →
      ∀ s0 : MainState K, (List.range 16).foldl (keyBody m keyDown GetTime) s0
        = keyBody m keyDown GetTime s0 k := fun k hk h s0 =>
    foldl_keyBody_one m keyDown GetTime k (List.range 16) s0 (List.nodup_range 16)
      (List.mem_range.mpr hk) (fun j hj => h j (List.mem_range.mp hj))
  have hnone : (∀ j : ℕ, j < 16 → keyDown j = false) →
      ∀ s0 : MainState K, (List.range 16).foldl (keyBody m keyDown GetTime) s0 = s0 :=
    fun h s0 => foldl_keyBody_none m keyDown GetTime (List.range 16) s0
      (fun j hj => h j (List.mem_range.mp hj))
  refine ⟨fun k hk h hcur => ?_, fun k hk h hcur => ?_, fun h hcur => ?_, fun h hcur => ?_⟩
  · have hkd : keyDown k = true := (h k hk).mpr rfl
    simp [pollPass, hone k hk h, keyBody, hkd, hcur]
  · have hkd : keyDown k = true := (h k hk).mpr rfl
    simp [pollPass, hone k hk h, keyBody, hkd, hcur]
  · simp [pollPass, hnone h, hcur]
  · simp [pollPass, hnone h, hcur]

/-- C15 (the claim fails here): with the real `sin` and `π`, at `f = 0.5 > 0` and `t = 0.01`
the analogue saw output `(2 / π) * sum_{n=1}^{99} sin(n * 2 * π * f * t) / n` is greater than
`1.1`, so it is not within `[-1.1, 1.1]`. -/
theorem oscilator_SAW_ANALOG_exceeds :
    (0 : ℝ) < 1 / 2 ∧
    ∃ v : ℝ,
      oscilator (⟨Real.sin, Real.arcsin, fun x y => x ^ y, Real.pi, 0, 1⟩ : MathEnv ℝ)
        (1 / 2) (1 / 100) .SAW_ANALOG = .fin v ∧
      v = (2 / Real.pi) * ∑ n ∈ Finset.Icc (1 : ℕ) 99,
        Real.sin ((n : ℝ) * (2 * Real.pi * (1 / 2)) * (1 / 100)) / (n : ℝ) ∧
      11 / 10 < v ∧ ¬ (-(11 / 10) ≤ v ∧ v ≤ 11 / 10) := by
  have hIcc : Finset.Icc (1 : ℕ) 99 = Finset.Ico 1 100 := by
    ext i
    simp only [Finset.mem_Icc, Finset.mem_Ico]
    omega
  have hgt := saw_sum_gt
  refine ⟨by norm_num, _, oscilator_SAW_ANALOG_real _ _ _ rfl rfl, ?_, hgt,
    fun h => absurd hgt (not_lt.mpr h.2)⟩
  rw [hIcc, mul_comm]

/-- C15 (amended): with the real `sin` and `π`, for every `f` and `t` the analogue saw output
`(2 / π) * sum_{n=1}^{99} sin(n * 2 * π * f * t) / n` stays within `[-1.17, 1.17]`; it does not
stay within `[-1.1, 1.1]`: for some `f > 0` and `t` it is greater than `1.1`. -/
theorem oscilator_SAW_ANALOG_bound (m : MathEnv ℝ) (hsin : m.sin = Real.sin)
    (hPI : m.PI = Real.pi) :
    (∀ f t : ℝ, ∃ v : ℝ, oscilator m f t .SAW_ANALOG = .fin v ∧
      v = (2 / Real.pi) * ∑ n ∈ Finset.Icc (1 : ℕ) 99,
        Real.sin ((n : ℝ) * (2 * Real.pi * f) * t) / (n : ℝ) ∧
      -(117 / 100) ≤ v ∧ v ≤ 117 / 100) ∧
    (∃ f t : ℝ, 0 < f ∧ ∃ v : ℝ, oscilator m f t .SAW_ANALOG = .fin v ∧ 11 / 10 < v) := by
  have hIcc : Finset.Icc (1 : ℕ) 99 = Finset.Ico 1 100 := by
    ext i
    simp only [Finset.mem_Icc, Finset.mem_Ico]
    omega
  refine ⟨fun f t => ?_, 1 / 2, 1 / 100, by norm_num, _,
    oscilator_SAW_ANALOG_real m _ _ hsin hPI, saw_sum_gt⟩
  have habs := abs_le.mp (saw_sum_abs_le_117 (2 * Real.pi * f * t))
  have hsum : (∑ i ∈ Finset.Ico (1 : ℕ) 100,
      Real.sin ((i : ℝ) * (2 * Real.pi * f) * t) / (i : ℝ))
      = ∑ i ∈ Finset.Ico (1 : ℕ) 100, Real.sin ((i : ℝ) * (2 * Real.pi * f * t)) / (i : ℝ) := by
    apply Finset.sum_congr rfl
    intro i _
    rw [mul_assoc]
  refine ⟨_, oscilator_SAW_ANALOG_real m f t hsin hPI, ?_, ?_, ?_⟩
  · rw [hIcc, mul_comm]
  · rw [hsum]; exact habs.1
  · rw [hsum]; exact habs.2

/-- Witness of C15 (amended): the real `sin` and `π` at `f = 110`, `t = 1`. -/
theorem oscilator_SAW_ANALOG_bound_witness :
    ((⟨Real.sin, Real.arcsin, fun x y => x ^ y, Real.pi, 0, 1⟩ : MathEnv ℝ).sin = Real.sin ∧
      (⟨Real.sin, Real.arcsin, fun x y => x ^ y, Real.pi, 0, 1⟩ : MathEnv ℝ).PI = Real.pi) ∧
    ∃ v : ℝ,
      oscilator (⟨Real.sin, Real.arcsin, fun x y => x ^ y, Real.pi, 0, 1⟩ : MathEnv ℝ)
        110 1 .SAW_ANALOG = .fin v ∧
      v = (2 / Real.pi) * ∑ n ∈ Finset.Icc (1 : ℕ) 99,
        Real.sin ((n : ℝ) * (2 * Real.pi * 110) * 1) / (n : ℝ) ∧
      -(117 / 100) ≤ v ∧ v ≤ 117 / 100 :=
  ⟨⟨rfl, rfl⟩,
    (oscilator_SAW_ANALOG_bound (⟨Real.sin, Real.arcsin, fun x y => x ^ y, Real.pi, 0, 1⟩ :
      MathEnv ℝ) rfl rfl).1 110 1⟩

end Synth
